import Mathlib

/-!
# Gaffer `Switch` node: a verification development

Shallow embedding of `include/Gaffer/Switch.inl` (the `Switch<BaseType>`
template) together with theorems about the index selector, the opposite-plug
resolver, the hash/compute router, the dependency propagator, the
internal-connection optimiser, `setup`, `acceptsInput` and the signal
handlers that keep the internal connection up to date.

## Conventions of the embedding

* A plug pointer is a `Ref`: the chain of names met when walking from the plug
  up to the node, the plug's own name first.  `plug->getName()` is the head,
  `plug->parent()` is the tail, and the node itself is `[]`.  Sibling names are
  unique in a `GraphComponent`, so a chain of names identifies one plug.
* A null pointer is `none`.  Calling a member on a null pointer is the fault
  `Fault.nullDereference`.
* `size_t` is a natural number below `2 ^ 64`; the `int` delivered by an
  `IntPlug` is an integer and its conversion to `size_t` is `toSizeT`.
-/

namespace Gaffer

/-! ## Plug trees -/

/-- Direction of a plug, `Plug::In` or `Plug::Out`. -/
inductive Direction where
  | In
  | Out
  deriving DecidableEq, Repr

/-- Run-time type of a plug, as far as `Switch.inl` asks about it:
`ArrayPlug` derives from `ValuePlug`, which derives from `Plug`. -/
inductive PlugType where
  | Plug
  | ValuePlug
  | ArrayPlug
  deriving DecidableEq, Repr

/-- Faults of the embedded code. -/
inductive Fault where
  | nullDereference
  deriving DecidableEq, Repr

/-- A plug with its name, direction, run-time type and ordered children. -/
inductive Plug where
  | mk (name : String) (direction : Direction) (type : PlugType) (children : List Plug)

/-- Name of a plug, `getName()`. -/
def Plug.name : Plug → String
  | .mk n _ _ _ => n

/-- Direction of a plug, `direction()`. -/
def Plug.direction : Plug → Direction
  | .mk _ d _ _ => d

/-- Run-time type of a plug. -/
def Plug.type : Plug → PlugType
  | .mk _ _ t _ => t

/-- Ordered children of a plug, `children()`. -/
def Plug.children : Plug → List Plug
  | .mk _ _ _ cs => cs

/-- Pointer to a plug of the node: the names from the plug up to the node. -/
abbrev Ref := List String

/-- Lookup of a child by name among the children of a component,
`getChild<Plug>( name )`. -/
def getChild (cs : List Plug) (name : String) : Option Plug :=
  cs.find? (fun c => c.name == name)

/-- `IECore::runTimeCast<const ValuePlug>` on the run-time type. -/
def PlugType.isValuePlug : PlugType → Bool
  | .Plug => false
  | .ValuePlug => true
  | .ArrayPlug => true

/-! ## Control plugs -/

/-- Evaluation context: the frame-like variables a value may depend on. -/
abbrev Context := List (String × Int)

/-- State of a control plug (`index` or `enabled`) as `Switch.inl` reads it:
what `plug->source()` resolves to, the value stored on that source, and the
value an upstream computation delivers for a context. -/
structure Control (α : Type) where
  /-- Direction of `plug->source<Plug>()`. -/
  sourceDirection : Direction
  /-- Whether `plug->source()->node()` casts to `ComputeNode`. -/
  sourceOnComputeNode : Bool
  /-- The fixed value stored on the source plug. -/
  stored : α
  /-- The value computed upstream under a context. -/
  computed : Context → α

/-- Embedding of `Switch::variesWithContext` (Switch.inl 426-431): the source
has output direction and belongs to a `ComputeNode`. -/
def variesWithContext {α : Type} (plug : Control α) : Bool :=
  plug.sourceDirection == Direction.Out && plug.sourceOnComputeNode

/-- Modelled from the spec: `ValuePlug::getValue()` is not part of the
sources.  A control "may be either a fixed stored constant or itself driven by
an upstream computation": a context-varying control delivers the upstream
value for the ambient context, any other control its stored value. -/
def Control.getValue {α : Type} (plug : Control α) (current : Context) : α :=
  if variesWithContext plug then plug.computed current else plug.stored

/-- Conversion of the `int` read from the `IntPlug` to `size_t`
(`size_t index = indexPlug->getValue()`), 64-bit two's complement. -/
def toSizeT (v : Int) : Nat :=
  (v % (2 : Int) ^ 64).toNat

/-! ## The node -/

/-- State of a `Switch` node. -/
structure Switch where
  /-- Plug children of the node other than the two controls, in order
  (`"in"`, `"out"`, and whatever the base class owns). -/
  children : List Plug
  /-- The `index` control, `IntPlug( "index", Plug::In, 0, 0 )`. -/
  index : Control Int
  /-- The `enabled` control. -/
  enabled : Control Bool
  /-- Structural input of the `"out"` plug, as set by `out->setInput()`. -/
  outInput : Option Ref

/-- Pointer of `Switch::indexPlug()`. -/
def indexPlug : Ref := ["index"]

/-- Pointer of `Switch::enabledPlug()`. -/
def enabledPlug : Ref := ["enabled"]

/-- Embedding of `Switch::inPlugs` (Switch.inl 129-139):
`getChild<ArrayPlug>( "in" )`. -/
def Switch.inPlugs (n : Switch) : Option Plug :=
  match getChild n.children "in" with
  | some p => if p.type = PlugType.ArrayPlug then some p else none
  | none => none

/-- Embedding of `Switch::outPlug` (Switch.inl 141-151):
`getChild<Plug>( "out" )`. -/
def Switch.outPlug (n : Switch) : Option Plug :=
  getChild n.children "out"

/-- Pointer of the input array. -/
def inRef : Ref := ["in"]

/-- Pointer of the output root. -/
def outRef : Ref := ["out"]

/-- Hash value, `IECore::MurmurHash`. -/
abbrev MurmurHash := Nat

/-- Value held by a `ValuePlug`. -/
abbrev Value := Int

/-- The host framework the node is a client of; none of it is part of
`Switch.inl`, so it is taken as given. -/
structure Host where
  /-- The context installed by `ContextAlgo::GlobalScope( context, plug )`. -/
  globalScope : Context → Context
  /-- Result of `ValuePlug::hash()` for a plug under the ambient context. -/
  plugHash : Ref → Context → MurmurHash
  /-- Result of `ValuePlug::getValue()` for a plug under the ambient context. -/
  plugValue : Ref → Context → Value
  /-- Effect of `BaseType::hash( output, context, h )` on `h`. -/
  baseHash : Ref → Context → MurmurHash → MurmurHash
  /-- Effect of `BaseType::compute( output, context )` on the stored values. -/
  baseCompute : Ref → Context → (Ref → Value) → (Ref → Value)
  /-- Plugs `BaseType::affects( input, outputs )` appends. -/
  baseAffects : Ref → List Ref

/-- Embedding of `Switch::inputIndex` (Switch.inl 345-368).  `current` is the
ambient `Context::current()` under which `getValue()` runs; `context` is the
argument, used only to build the global scope for a context-varying index. -/
def Switch.inputIndex (host : Host) (n : Switch) (current context : Context) : Nat :=
  match n.inPlugs with
  | some inPlugs =>
    if n.enabled.getValue current && decide (inPlugs.children.length > 1) then
      let index : Nat :=
        if variesWithContext n.index then
          toSizeT (n.index.getValue (host.globalScope context))
        else
          toSizeT (n.index.getValue current)
      index % (inPlugs.children.length - 1)
    else
      0
  | none => 0

/-! ## The opposite-plug resolver -/

/-- Children of the component a pointer names; `[]` names the node. -/
def Switch.childrenAt (n : Switch) : Ref → Option (List Plug)
  | [] => some n.children
  | name :: parent =>
    match n.childrenAt parent with
    | some cs => (getChild cs name).map Plug.children
    | none => none

/-- The plug a pointer names, if the node has one there. -/
def Switch.plugAt (n : Switch) : Ref → Option Plug
  | [] => none
  | name :: parent =>
    match n.childrenAt parent with
    | some cs => getChild cs name
    | none => none

/-- Modelled from the spec: `GraphComponent::getChild<Plug>( index )` is not
part of the sources.  The slot at an index of the input array, "none" when
the array has no child there. -/
def slotRef (inPlugs : Plug) (inputIndex : Nat) : Option Ref :=
  (inPlugs.children.get? inputIndex).map (fun c => [c.name, "in"])

/-- The `while( plug )` loop of `Switch::oppositePlug` (Switch.inl 385-398):
walks from `plug` towards the root, pushing the names passed onto the back of
`names`, until `plug->parent() == inPlugs` or `plug == outPlug`.  Returns
`ancestorPlug` with `names`, or `none` when the walk leaves the top of the
tree with `ancestorPlug` still null. -/
def findAncestor : Ref → List String → Option (Ref × List String)
  | [], _ => none
  | name :: plugParent, names =>
    if plugParent = inRef ∨ name :: plugParent = outRef then
      some (name :: plugParent, names)
    else
      findAncestor plugParent (names ++ [name])

/-- The `for` loop of `Switch::oppositePlug` (Switch.inl 417-421):
`result = result->getChild<Plug>( *it )` for `it` running from
`names.begin()` to `names.end()`. -/
def Switch.descend (n : Switch) : Option Ref → List String → Except Fault (Option Ref)
  | result, [] => .ok result
  | none, _ :: _ => .error Fault.nullDereference
  | some result, name :: names =>
    n.descend
      (match n.childrenAt result with
        | some cs => (getChild cs name).map (fun _ => name :: result)
        | none => none)
      names

/-- Embedding of `Switch::oppositePlug` (Switch.inl 370-424). -/
def Switch.oppositePlug (n : Switch) (plug : Ref) (inputIndex : Nat) :
    Except Fault (Option Ref) :=
  match n.inPlugs, n.outPlug with
  | some inPlugs, some _ =>
    match findAncestor plug [] with
    | none => .ok none
    | some (ancestorPlug, names) =>
      let oppositeAncestorPlug : Option Ref :=
        if (n.plugAt ancestorPlug).map Plug.direction = some Direction.Out then
          slotRef inPlugs inputIndex
        else
          some outRef
      n.descend oppositeAncestorPlug names
  | _, _ => .ok none

/-! ## The hash and compute router -/

/-- `IECore::runTimeCast<const ValuePlug>( plug )` on a possibly null pointer. -/
def Switch.runTimeCastValuePlug (n : Switch) : Option Ref → Option Ref
  | none => none
  | some plug =>
    match n.plugAt plug with
    | some p => if p.type.isValuePlug then some plug else none
    | none => none

/-- Outcome of `hash` or `compute`: the result, and whether the call went on
to the base class. -/
structure Routed (α : Type) where
  /-- What the call leaves behind. -/
  result : α
  /-- Whether `BaseType::hash` / `BaseType::compute` was invoked. -/
  baseCalled : Bool

/-- Embedding of `Switch::hash` (Switch.inl 303-313); `h` is the in/out hash
argument. -/
def Switch.hash (host : Host) (n : Switch) (current : Context) (output : Ref)
    (context : Context) (h : MurmurHash) : Except Fault (Routed MurmurHash) :=
  match n.oppositePlug output (n.inputIndex host current context) with
  | .error e => .error e
  | .ok opposite =>
    match n.runTimeCastValuePlug opposite with
    | some input => .ok { result := host.plugHash input current, baseCalled := false }
    | none => .ok { result := host.baseHash output context h, baseCalled := true }

/-- Embedding of `Switch::compute` (Switch.inl 315-325); `values` are the
values held by the node's plugs, which `output->setFrom( input )` updates. -/
def Switch.compute (host : Host) (n : Switch) (current : Context) (output : Ref)
    (context : Context) (values : Ref → Value) : Except Fault (Routed (Ref → Value)) :=
  match n.oppositePlug output (n.inputIndex host current context) with
  | .error e => .error e
  | .ok opposite =>
    match n.runTimeCastValuePlug opposite with
    | some input =>
      .ok { result := Function.update values output (host.plugValue input current),
            baseCalled := false }
    | none => .ok { result := host.baseCompute output context values, baseCalled := true }

/-! ## The internal connection -/

/-- Embedding of `Switch::updateInternalConnection` (Switch.inl 433-453).
`inputIndex()` is called without a context there; the argument only matters
to a context-varying index, which this branch has excluded. -/
def Switch.updateInternalConnection (host : Host) (n : Switch) (current : Context) :
    Except Fault Switch :=
  match n.outPlug with
  | none => .ok n
  | some _ =>
    if variesWithContext n.enabled || variesWithContext n.index then
      .ok { n with outInput := none }
    else
      match n.oppositePlug outRef (n.inputIndex host current current) with
      | .error e => .error e
      | .ok input => .ok { n with outInput := input }

/-! ## Dependency propagation -/

mutual
/-- Modelled from the spec: `RecursiveOutputPlugIterator` is not part of the
sources.  It visits the descendants of a plug depth first, parents before
children, and yields those of output direction; here for one child. -/
def visitOutputPlugs (parent : Ref) : Plug → List (Ref × Plug)
  | .mk name d t children =>
    (if d = Direction.Out then [(name :: parent, Plug.mk name d t children)] else [])
      ++ recursiveOutputPlugs (name :: parent) children
/-- The plugs `RecursiveOutputPlugIterator` yields below a list of children. -/
def recursiveOutputPlugs (parent : Ref) : List Plug → List (Ref × Plug)
  | [] => []
  | c :: cs => visitOutputPlugs parent c ++ recursiveOutputPlugs parent cs
end

/-- Embedding of `Switch::affects` (Switch.inl 202-237); `outputs` is the
container the caller passes in.  `oppositePlug( input )` uses the default
slot index 0. -/
def Switch.affects (host : Host) (n : Switch) (input : Ref) (outputs : List Ref) :
    Except Fault (List Ref) :=
  let outputs := outputs ++ host.baseAffects input
  if input = enabledPlug ∨ input = indexPlug then
    match n.outPlug with
    | some out =>
      if out.children.length ≠ 0 then
        .ok (outputs ++
          ((recursiveOutputPlugs outRef out.children).filter
            (fun it => it.2.children.length == 0)).map Prod.fst)
      else
        .ok (outputs ++ [outRef])
    | none => .ok outputs
  else if (n.plugAt input).map Plug.direction = some Direction.In then
    match n.oppositePlug input 0 with
    | .error e => .error e
    | .ok (some output) => .ok (outputs ++ [output])
    | .ok none => .ok outputs
  else
    .ok outputs

/-! ## Example nodes -/

/-- A leaf value plug. -/
def leaf (name : String) (d : Direction) : Plug :=
  .mk name d PlugType.ValuePlug []

/-- A control holding a fixed value. -/
def fixed {α : Type} (v : α) : Control α :=
  { sourceDirection := Direction.In, sourceOnComputeNode := false, stored := v,
    computed := fun _ => v }

/-- Scenario A: three real slots and the trailing empty one, atomic output,
`index = 5`, `enabled = true`, nothing context-varying. -/
def scenarioA : Switch :=
  { children :=
      [ .mk "in" Direction.In PlugType.ArrayPlug
          [leaf "in0" Direction.In, leaf "in1" Direction.In, leaf "in2" Direction.In,
            leaf "in3" Direction.In],
        leaf "out" Direction.Out ],
    index := fixed 5, enabled := fixed true, outInput := none }

/-- A compound plug with child `a`, which has child `b`. -/
def nested (name : String) (d : Direction) : Plug :=
  .mk name d PlugType.ValuePlug [.mk "a" d PlugType.ValuePlug [leaf "b" d]]

/-- A node whose output and slots are two levels deep: `out.a.b`, `in.in0.a.b`. -/
def nestedNode : Switch :=
  { children :=
      [ .mk "in" Direction.In PlugType.ArrayPlug
          [nested "in0" Direction.In, nested "in1" Direction.In],
        nested "out" Direction.Out ],
    index := fixed 0, enabled := fixed true, outInput := none }

/-- Scenario B: scenario A with `enabled = false`. -/
def scenarioB : Switch :=
  { scenarioA with enabled := fixed false }

/-- A host whose plugs hash to and hold the length of their own name, with the
identity as global scope and a base class that does nothing. -/
def exampleHost : Host :=
  { globalScope := id,
    plugHash := fun r _ => (r.headD "").length,
    plugValue := fun r _ => (r.headD "").length,
    baseHash := fun _ _ h => h,
    baseCompute := fun _ _ values => values,
    baseAffects := fun _ => [] }

/-- A node whose output and slots hold both `a.b` and `b.a`. -/
def crossedNode : Switch :=
  let shape (name : String) (d : Direction) : Plug :=
    .mk name d PlugType.ValuePlug
      [.mk "a" d PlugType.ValuePlug [leaf "b" d], .mk "b" d PlugType.ValuePlug [leaf "a" d]]
  { children :=
      [ .mk "in" Direction.In PlugType.ArrayPlug [shape "in0" Direction.In],
        shape "out" Direction.Out ],
    index := fixed 0, enabled := fixed true, outInput := none }

/-- A node with an output root and no input array. -/
def outputOnly : Switch :=
  { children := [leaf "out" Direction.Out],
    index := fixed 0, enabled := fixed true, outInput := none }

/-- Value of the `frame` variable of a context, 0 when it has none. -/
def frameOf (context : Context) : Int :=
  match context.find? (fun kv => kv.1 == "frame") with
  | some kv => kv.2
  | none => 0

/-- Scenario C: the node of scenario A with an index driven by an upstream
compute node that delivers `frame - 1`. -/
def scenarioC : Switch :=
  { scenarioA with
    index :=
      { sourceDirection := Direction.Out, sourceOnComputeNode := true, stored := 0,
        computed := fun context => frameOf context - 1 } }

/-- `Descendant base cs r d`: the plug `d` is one of the plugs `cs`, the
children of the component with pointer `base`, or lies below one of them at
any depth, and `r` is the pointer of `d`. -/
inductive Descendant : Ref → List Plug → Ref → Plug → Prop where
  | child {base : Ref} {cs : List Plug} {c : Plug} :
      c ∈ cs → Descendant base cs (c.name :: base) c
  | deeper {base : Ref} {cs : List Plug} {c : Plug} {r : Ref} {d : Plug} :
      c ∈ cs → Descendant (c.name :: base) c.children r d → Descendant base cs r d

/-- Scenario E: the output and each slot are compounds with two leaves `X`
and `Y`. -/
def scenarioE : Switch :=
  let shape (name : String) (d : Direction) : Plug :=
    .mk name d PlugType.ValuePlug [leaf "X" d, leaf "Y" d]
  { children :=
      [ .mk "in" Direction.In PlugType.ArrayPlug
          [shape "in0" Direction.In, shape "in1" Direction.In],
        shape "out" Direction.Out ],
    index := fixed 0, enabled := fixed true, outInput := none }

/-! ## Setup, accessors and signal handlers -/

/-- The `IECore::Exception`s thrown by `Switch::setup`. -/
inductive Exception where
  /-- `Switch already has an "in" plug.` -/
  | alreadyHasIn
  /-- `Switch already has an "out" plug.` -/
  | alreadyHasOut
  deriving DecidableEq, Repr

mutual
/-- Modelled from the spec: `Plug::createCounterpart( name, direction )` is
not part of the sources.  It copies the shape of a plug, "same nested child
names/types", under a new name and with the given direction throughout. -/
def createCounterpart : Plug → String → Direction → Plug
  | .mk _ _ t children, name, d => .mk name d t (createCounterparts children d)
/-- The counterparts of a list of children, each under its own name. -/
def createCounterparts : List Plug → Direction → List Plug
  | [], _ => []
  | .mk name _ t children :: cs, d =>
    .mk name d t (createCounterparts children d) :: createCounterparts cs d
end

/-- `child->parent<Plug>()`: the parent of a component if that is a plug,
null if the parent is the node. -/
def parentPlug : Ref → Option Ref
  | [] => none
  | [_] => none
  | _ :: parent => some parent

/-- Embedding of `Switch::childAdded` (Switch.inl 239-262); `child` is the
pointer of the component just added.  With null `inPlugs`, a child of the
node itself has `parent<Plug>()` null as well and takes the first branch. -/
def Switch.childAdded (host : Host) (n : Switch) (current : Context) (child : Ref) :
    Except Fault Switch :=
  let inPlugs : Option Ref := n.inPlugs.map (fun _ => inRef)
  let outPlug : Option Ref := n.outPlug.map (fun _ => outRef)
  if parentPlug child = inPlugs then
    n.updateInternalConnection host current
  else if some child = inPlugs then
    n.updateInternalConnection host current
  else if some child = outPlug then
    n.updateInternalConnection host current
  else
    .ok n

/-- Embedding of `Switch::plugSet` (Switch.inl 327-334). -/
def Switch.plugSet (host : Host) (n : Switch) (current : Context) (plug : Ref) :
    Except Fault Switch :=
  if plug = indexPlug ∨ plug = enabledPlug then
    n.updateInternalConnection host current
  else
    .ok n

/-- Embedding of `Switch::plugInputChanged` (Switch.inl 336-343). -/
def Switch.plugInputChanged (host : Host) (n : Switch) (current : Context) (plug : Ref) :
    Except Fault Switch :=
  if plug = indexPlug ∨ plug = enabledPlug then
    n.updateInternalConnection host current
  else
    .ok n

/-- Modelled from the spec: `BaseType::addChild` is not part of the sources.
The child is appended to the node's children and the node's `childAdded`
signal, to which `init` connected `Switch::childAdded`, is emitted for it. -/
def Switch.addChild (host : Host) (n : Switch) (current : Context) (child : Plug) :
    Except Fault Switch :=
  Switch.childAdded host { n with children := n.children ++ [child] } current [child.name]

/-- Embedding of `Switch::setup` (Switch.inl 98-127).  The result is the node
as the call leaves it, with the exception it threw, if any. -/
def Switch.setup (host : Host) (n : Switch) (current : Context) (plug : Plug) :
    Except Fault (Switch × Option Exception) :=
  if n.inPlugs.isSome then
    .ok (n, some Exception.alreadyHasIn)
  else if n.outPlug.isSome then
    .ok (n, some Exception.alreadyHasOut)
  else
    let inElement := createCounterpart plug "in0" Direction.In
    let inArray := Plug.mk "in" Direction.In PlugType.ArrayPlug [inElement]
    match n.addChild host current inArray with
    | .error e => .error e
    | .ok n1 =>
      let out := createCounterpart plug "out" Direction.Out
      match n1.addChild host current out with
      | .error e => .error e
      | .ok n2 => .ok (n2, none)

/-- Embedding of `Switch::activeInPlug` (Switch.inl 153-162). -/
def Switch.activeInPlug (host : Host) (n : Switch) (current : Context) : Option Ref :=
  match n.inPlugs with
  | none => none
  | some inputs => slotRef inputs (n.inputIndex host current current)

/-- Embedding of `Switch::correspondingInput` (Switch.inl 264-274). -/
def Switch.correspondingInput (n : Switch) (output : Ref) : Except Fault (Option Ref) :=
  n.oppositePlug output 0

/-- What the host answers when asked whether a connection is acceptable;
none of it is part of `Switch.inl`. -/
structure Acceptance where
  /-- Result of `BaseType::acceptsInput( plug, inputPlug )`. -/
  baseAcceptsInput : Ref → Option Ref → Bool
  /-- Result of `plug->acceptsInput( inputPlug )` for a plug of the node. -/
  plugAcceptsInput : Ref → Ref → Bool

/-- Embedding of `Switch::acceptsInput` (Switch.inl 276-301); a null
`inputPlug` is `none`, and `oppositePlug( plug )` uses the default slot
index 0. -/
def Switch.acceptsInput (acc : Acceptance) (n : Switch) (plug : Ref) (inputPlug : Option Ref) :
    Except Fault Bool :=
  if !acc.baseAcceptsInput plug inputPlug then
    .ok false
  else
    match inputPlug with
    | none => .ok true
    | some inputPlug =>
      if (n.plugAt plug).map Plug.direction = some Direction.In then
        match n.oppositePlug plug 0 with
        | .error e => .error e
        | .ok (some opposite) =>
          if !acc.plugAcceptsInput opposite inputPlug then .ok false else .ok true
        | .ok none => .ok true
      else
        .ok true

/-- An empty node as `init` leaves it when the base class owns no plugs. -/
def emptyNode : Switch :=
  { children := [], index := fixed 0, enabled := fixed true, outInput := none }

/-- A node whose shapes have diverged: the output holds `a.a`, the only slot
is a leaf. -/
def mismatchedNode : Switch :=
  { children :=
      [ .mk "in" Direction.In PlugType.ArrayPlug [leaf "in0" Direction.In],
        .mk "out" Direction.Out PlugType.ValuePlug
          [.mk "a" Direction.Out PlugType.ValuePlug [leaf "a" Direction.Out]] ],
    index := fixed 0, enabled := fixed true, outInput := none }

/-- A host that accepts every connection except those from the plug `bad`,
which the plugs of the node reject. -/
def exampleAcceptance : Acceptance :=
  { baseAcceptsInput := fun _ _ => true,
    plugAcceptsInput := fun _ inputPlug => inputPlug != ["bad"] }

/-! ## Mutations of the node and the signals they emit -/

/-- The node after the host has changed the children of the input array. -/
def Switch.mapInChildren (n : Switch) (f : List Plug → List Plug) : Switch :=
  { n with
    children :=
      n.children.map (fun c =>
        if c.name == "in" && c.type == PlugType.ArrayPlug then
          Plug.mk c.name c.direction c.type (f c.children)
        else c) }

/-- Mutations of a node by the graph owner. -/
inductive Event where
  /-- `indexPlug()->setValue( v )`; the plug, `IntPlug( "index", Plug::In, 0, 0 )`,
  stores the value clamped to its minimum 0. -/
  | indexSet (v : Int)
  /-- `enabledPlug()->setValue( v )`. -/
  | enabledSet (v : Bool)
  /-- The input connection of the Index control changed; `source` is what the
  control now resolves to. -/
  | indexInputChanged (source : Control Int)
  /-- The input connection of the Enabled control changed. -/
  | enabledInputChanged (source : Control Bool)
  /-- A slot was appended to the input array. -/
  | slotAppended (slot : Plug)
  /-- The slot at an index was removed from the input array. -/
  | slotRemoved (i : Nat)
  /-- A plug was added to the node, as `setup` does with `out`. -/
  | outputAttached (out : Plug)

/-- Modelled from the spec: the signal bus is not part of the sources.  The
host performs the mutation and emits "value set", "input connection changed"
or "child added", which reach the handlers connected in `Switch::init` and
`Switch::childAdded` (Switch.inl 79, 86, 89, 90, 254).  `Switch.inl` connects
no handler to any signal emitted when a child is removed. -/
def Switch.handle (host : Host) (n : Switch) (current : Context) : Event → Except Fault Switch
  | .indexSet v =>
    Switch.plugSet host { n with index := { n.index with stored := max v 0 } } current
      indexPlug
  | .enabledSet v =>
    Switch.plugSet host { n with enabled := { n.enabled with stored := v } } current enabledPlug
  | .indexInputChanged source =>
    Switch.plugInputChanged host { n with index := source } current indexPlug
  | .enabledInputChanged source =>
    Switch.plugInputChanged host { n with enabled := source } current enabledPlug
  | .slotAppended slot =>
    Switch.childAdded host (n.mapInChildren (fun cs => cs ++ [slot])) current [slot.name, "in"]
  | .slotRemoved i =>
    .ok (n.mapInChildren (fun cs => cs.eraseIdx i))
  | .outputAttached out =>
    n.addChild host current out

/-- The wiring the output root should have: none if a control varies with
context, else the slot at the active index for the stored control values and
the present array size. -/
def Switch.expectedWire (host : Host) (n : Switch) (current : Context) : Option Ref :=
  if variesWithContext n.enabled || variesWithContext n.index then none
  else
    match n.inPlugs with
    | some a => slotRef a (n.inputIndex host current current)
    | none => none

/-- Scenario A after `updateInternalConnection`: the output is wired to slot 2. -/
def wiredA : Switch :=
  { scenarioA with outInput := some ["in2", "in"] }

/-- A control whose input is a plug that holds a fixed value and belongs to a
node that computes nothing: it does not vary with context and delivers that
value whatever it is, the minimum of the control not applying to it. -/
def driven {α : Type} (v : α) : Control α :=
  { sourceDirection := Direction.Out, sourceOnComputeNode := false, stored := v,
    computed := fun _ => v }

/-- Scenario A with the index driven by a plug holding `-2`. -/
def negativeIndexA : Switch :=
  { scenarioA with index := driven (-2) }

/-- A node with three slots, enabled, whose index is driven by a plug holding
`-2`. -/
def negativeIndexB : Switch :=
  { children :=
      [ .mk "in" Direction.In PlugType.ArrayPlug
          [leaf "in0" Direction.In, leaf "in1" Direction.In, leaf "in2" Direction.In],
        leaf "out" Direction.Out ],
    index := driven (-2), enabled := fixed true, outInput := none }

/-! ## Index selector -/

theorem getValue_of_not_varies {α : Type} (plug : Control α) (current : Context)
    (h : variesWithContext plug = false) : plug.getValue current = plug.stored := by
  simp [Control.getValue, h]

theorem toSizeT_of_nonneg (v : Int) (h0 : 0 ≤ v) (h : v < 2 ^ 31) : toSizeT v = v.toNat := by
  unfold toSizeT
  rw [Int.emod_eq_of_lt h0 (by omega)]

theorem inputIndex_of_gate_closed (host : Host) (n : Switch) (current context : Context)
    (h : n.enabled.getValue current = false ∨
      ∀ a, n.inPlugs = some a → a.children.length ≤ 1) :
    n.inputIndex host current context = 0 := by
  unfold Switch.inputIndex
  cases hin : n.inPlugs with
  | none => rfl
  | some a =>
    rcases h with h | h
    · simp [h]
    · have hle := h a hin
      have : ¬ (a.children.length > 1) := by omega
      simp [this]

theorem inputIndex_of_fixed_index (host : Host) (n : Switch) (current context : Context)
    (a : Plug) (v : Int)
    (hen : n.enabled.getValue current = true) (hin : n.inPlugs = some a)
    (hN : 1 < a.children.length) (hvar : variesWithContext n.index = false)
    (hstored : n.index.stored = v) (hv0 : 0 ≤ v) (hv : v < 2 ^ 31) :
    n.inputIndex host current context = v.toNat % (a.children.length - 1) := by
  unfold Switch.inputIndex
  simp [hin, hen, hN, hvar, getValue_of_not_varies, hstored, toSizeT_of_nonneg v hv0 hv]

/-- C1: whenever the Enabled control evaluates to false, or the input array is
missing or has at most one child, `inputIndex` returns 0 for every context,
whatever the Index control holds and whether or not it varies with context. -/
theorem inputIndex_eq_zero (host : Host) (n : Switch) (current context : Context)
    (h : n.enabled.getValue current = false ∨
      ∀ a, n.inPlugs = some a → a.children.length ≤ 1) :
    n.inputIndex host current context = 0 :=
  inputIndex_of_gate_closed host n current context h

theorem inputIndex_eq_zero_witness :
    (scenarioB.enabled.getValue [("frame", 1)] = false ∨
      ∀ a, scenarioB.inPlugs = some a → a.children.length ≤ 1) ∧
    scenarioB.inputIndex exampleHost [("frame", 1)] [("frame", 1)] = 0 :=
  ⟨Or.inl rfl, inputIndex_eq_zero exampleHost scenarioB _ _ (Or.inl rfl)⟩

/-- C2: with Enabled true, an input array of size `N > 1` and an Index control
that does not vary with context and stores `v ≥ 0`, `inputIndex` is
`v mod (N - 1)` for every context. -/
theorem inputIndex_eq_mod (host : Host) (n : Switch) (current context : Context)
    (a : Plug) (v : Int)
    (hen : n.enabled.getValue current = true) (hin : n.inPlugs = some a)
    (hN : 1 < a.children.length) (hvar : variesWithContext n.index = false)
    (hstored : n.index.stored = v) (hv0 : 0 ≤ v) (hv : v < 2 ^ 31) :
    n.inputIndex host current context = v.toNat % (a.children.length - 1) :=
  inputIndex_of_fixed_index host n current context a v hen hin hN hvar hstored hv0 hv

theorem inputIndex_eq_mod_witness :
    scenarioA.enabled.getValue [] = true ∧
    scenarioA.inPlugs = some (.mk "in" Direction.In PlugType.ArrayPlug
          [leaf "in0" Direction.In, leaf "in1" Direction.In, leaf "in2" Direction.In,
            leaf "in3" Direction.In]) ∧
    variesWithContext scenarioA.index = false ∧ scenarioA.index.stored = 5 ∧
    scenarioA.inputIndex exampleHost [] [("frame", 7)] = 2 :=
  ⟨rfl, rfl, rfl, rfl,
    inputIndex_eq_mod exampleHost scenarioA [] [("frame", 7)] _ 5 rfl rfl (by decide) rfl rfl
      (by decide) (by decide)⟩

/-! ## Opposite-plug resolver -/

/-- C3: on a node whose output and slots have the shape `a.b`, the resolver
applied to `out.a.b` with slot 0 does not return `in.in0.a.b`, which exists:
the names `[b, a]` collected on the way up are applied from the front, so the
descent asks slot `in0` for a child `b`, gets null and then calls `getChild`
on it.  The same happens from the input side, and where both `a.b` and `b.a`
exist the resolver lands on the plug at the reversed path. -/
theorem oppositePlug_nested_reversed :
    (nestedNode.plugAt ["b", "a", "out"]).isSome = true ∧
    (nestedNode.plugAt ["b", "a", "in0", "in"]).isSome = true ∧
    nestedNode.oppositePlug ["b", "a", "out"] 0 = .error Fault.nullDereference ∧
    nestedNode.oppositePlug ["b", "a", "in0", "in"] 0 = .error Fault.nullDereference ∧
    crossedNode.oppositePlug ["b", "a", "out"] 0 = .ok (some ["a", "b", "in0", "in"]) ∧
    crossedNode.oppositePlug ["b", "a", "in0", "in"] 0 = .ok (some ["a", "b", "out"]) :=
  ⟨rfl, rfl, rfl, rfl, rfl, rfl⟩

/-! ## Hash and compute router -/

/-- C4: for every output plug and context, if the resolver at the active index
yields a value plug `s` then `hash` returns exactly the hash of `s`, whatever
`h` held before and without calling the base class; if the resolver yields
nothing, `hash` is exactly the base-class hash. -/
theorem hash_eq_opposite_hash (host : Host) (n : Switch) (current : Context) (output : Ref)
    (context : Context) (h : MurmurHash) :
    (∀ s, n.oppositePlug output (n.inputIndex host current context) = .ok (some s) →
        n.runTimeCastValuePlug (some s) = some s →
        n.hash host current output context h =
          .ok { result := host.plugHash s current, baseCalled := false }) ∧
    (n.oppositePlug output (n.inputIndex host current context) = .ok none →
        n.hash host current output context h =
          .ok { result := host.baseHash output context h, baseCalled := true }) := by
  constructor
  · intro s hs hcast
    simp [Switch.hash, hs, hcast]
  · intro hs
    simp [Switch.hash, hs, Switch.runTimeCastValuePlug]

theorem hash_eq_opposite_hash_witness :
    (scenarioA.oppositePlug outRef (scenarioA.inputIndex exampleHost [] []) =
        .ok (some ["in2", "in"]) ∧
      scenarioA.runTimeCastValuePlug (some ["in2", "in"]) = some ["in2", "in"] ∧
      scenarioA.hash exampleHost [] outRef [] 77 = .ok { result := 3, baseCalled := false }) ∧
    (outputOnly.oppositePlug outRef (outputOnly.inputIndex exampleHost [] []) = .ok none ∧
      outputOnly.hash exampleHost [] outRef [] 77 = .ok { result := 77, baseCalled := true }) :=
  ⟨⟨rfl, rfl, (hash_eq_opposite_hash exampleHost scenarioA [] outRef [] 77).1 _ rfl rfl⟩,
    ⟨rfl, (hash_eq_opposite_hash exampleHost outputOnly [] outRef [] 77).2 rfl⟩⟩

/-- C5: for every output plug and context for which the resolver at the active
index yields a value plug `s`, `compute` sets the output's value to the value
of `s`, leaves every other plug's value alone and does not call the base
class.  In scenario A (array size 4, `index = 5`, enabled, nothing varying)
the output gets slot 2's value under any context, and in scenario B (the same
with `enabled = false`) it gets slot 0's value. -/
theorem compute_copies_opposite (host : Host) (current context : Context)
    (values : Ref → Value) :
    (∀ (n : Switch) (output s : Ref),
        n.oppositePlug output (n.inputIndex host current context) = .ok (some s) →
        n.runTimeCastValuePlug (some s) = some s →
        ∃ r, n.compute host current output context values = .ok r ∧
          r.result output = host.plugValue s current ∧
          (∀ p, p ≠ output → r.result p = values p) ∧ r.baseCalled = false) ∧
    (∃ r, scenarioA.compute host current outRef context values = .ok r ∧
        r.result outRef = host.plugValue ["in2", "in"] current ∧ r.baseCalled = false) ∧
    (∃ r, scenarioB.compute host current outRef context values = .ok r ∧
        r.result outRef = host.plugValue ["in0", "in"] current ∧ r.baseCalled = false) := by
  have hA : scenarioA.inputIndex host current context = 2 :=
    inputIndex_of_fixed_index host scenarioA current context _ 5 rfl rfl (by decide) rfl rfl
      (by decide) (by decide)
  have hB : scenarioB.inputIndex host current context = 0 :=
    inputIndex_of_gate_closed host scenarioB current context (Or.inl rfl)
  refine ⟨?_, ?_, ?_⟩
  · intro n output s hs hcast
    refine ⟨⟨Function.update values output (host.plugValue s current), false⟩, ?_, ?_, ?_, rfl⟩
    · simp only [Switch.compute, hs, hcast]
    · simp
    · intro p hp
      simp [Function.update, hp]
  · refine ⟨⟨Function.update values outRef (host.plugValue ["in2", "in"] current), false⟩,
      ?_, ?_, rfl⟩
    · unfold Switch.compute
      rw [hA]
      rfl
    · simp
  · refine ⟨⟨Function.update values outRef (host.plugValue ["in0", "in"] current), false⟩,
      ?_, ?_, rfl⟩
    · unfold Switch.compute
      rw [hB]
      rfl
    · simp

theorem compute_copies_opposite_witness :
    scenarioA.oppositePlug outRef (scenarioA.inputIndex exampleHost [] []) =
        .ok (some ["in2", "in"]) ∧
      scenarioA.runTimeCastValuePlug (some ["in2", "in"]) = some ["in2", "in"] ∧
      ∃ r, scenarioA.compute exampleHost [] outRef [] (fun _ => 0) = .ok r ∧
        r.result outRef = exampleHost.plugValue ["in2", "in"] [] ∧
        (∀ p, p ≠ outRef → r.result p = 0) ∧ r.baseCalled = false :=
  ⟨rfl, rfl, (compute_copies_opposite exampleHost [] [] (fun _ => 0)).1 scenarioA outRef _ rfl rfl⟩

/-! ## Internal connection -/

theorem childrenAt_congr (n m : Switch) (h : n.children = m.children) (r : Ref) :
    n.childrenAt r = m.childrenAt r := by
  induction r with
  | nil => simp [Switch.childrenAt, h]
  | cons name parent ih => simp [Switch.childrenAt, ih]

theorem plugAt_congr (n m : Switch) (h : n.children = m.children) (r : Ref) :
    n.plugAt r = m.plugAt r := by
  cases r with
  | nil => rfl
  | cons name parent => simp [Switch.plugAt, childrenAt_congr n m h]

theorem descend_congr (n m : Switch) (h : n.children = m.children) (names : List String) :
    ∀ result : Option Ref, n.descend result names = m.descend result names := by
  induction names with
  | nil => intro result; cases result <;> rfl
  | cons name names ih =>
    intro result
    cases result with
    | none => rfl
    | some r => simp [Switch.descend, childrenAt_congr n m h, ih]

theorem oppositePlug_congr (n m : Switch) (h : n.children = m.children) (plug : Ref)
    (i : Nat) : n.oppositePlug plug i = m.oppositePlug plug i := by
  have hin : n.inPlugs = m.inPlugs := by simp [Switch.inPlugs, h]
  have hout : n.outPlug = m.outPlug := by simp [Switch.outPlug, h]
  unfold Switch.oppositePlug
  rw [hin, hout]
  cases m.inPlugs <;> cases m.outPlug <;> try rfl
  cases findAncestor plug [] with
  | none => rfl
  | some p => simp [plugAt_congr n m h, descend_congr n m h]

theorem inputIndex_congr (host : Host) (n m : Switch) (h : n.children = m.children)
    (hi : n.index = m.index) (he : n.enabled = m.enabled) (current context : Context) :
    n.inputIndex host current context = m.inputIndex host current context := by
  have hin : n.inPlugs = m.inPlugs := by simp [Switch.inPlugs, h]
  simp [Switch.inputIndex, hin, hi, he]

theorem oppositePlug_setOutInput (n : Switch) (x : Option Ref) (plug : Ref) (i : Nat) :
    Switch.oppositePlug { n with outInput := x } plug i = n.oppositePlug plug i :=
  oppositePlug_congr { n with outInput := x } n rfl plug i

theorem inputIndex_setOutInput (host : Host) (n : Switch) (x : Option Ref)
    (current context : Context) :
    Switch.inputIndex host { n with outInput := x } current context =
      n.inputIndex host current context :=
  inputIndex_congr host { n with outInput := x } n rfl rfl rfl current context

theorem oppositePlug_outRef (n : Switch) (a out : Plug) (i : Nat)
    (hin : n.inPlugs = some a) (hout : n.outPlug = some out) :
    n.oppositePlug outRef i =
      .ok (if out.direction = Direction.Out then slotRef a i else some outRef) := by
  have hp : n.plugAt ["out"] = some out := hout
  simp [Switch.oppositePlug, hin, hout, findAncestor, outRef, inRef, hp, Switch.descend]

theorem oppositePlug_outRef_of_no_inPlugs (n : Switch) (i : Nat) (hin : n.inPlugs = none) :
    n.oppositePlug outRef i = .ok none := by
  simp [Switch.oppositePlug, hin]

theorem inputIndex_lt (host : Host) (n : Switch) (a : Plug) (current context : Context)
    (hin : n.inPlugs = some a) (hne : a.children ≠ []) :
    n.inputIndex host current context < a.children.length := by
  have hpos : 0 < a.children.length := List.length_pos.mpr hne
  unfold Switch.inputIndex
  simp only [hin]
  split
  · rename_i hc
    simp at hc
    have hlt := Nat.mod_lt
      (if variesWithContext n.index then toSizeT (n.index.getValue (host.globalScope context))
        else toSizeT (n.index.getValue current))
      (show a.children.length - 1 > 0 by omega)
    simp only at hlt ⊢
    omega
  · exact hpos

theorem inputIndex_of_fixed_controls (host : Host) (n : Switch) (current context : Context)
    (hen : variesWithContext n.enabled = false) (hidx : variesWithContext n.index = false) :
    n.inputIndex host current context =
      match n.inPlugs with
      | some a =>
        if n.enabled.stored = false ∨ a.children.length ≤ 1 then 0
        else toSizeT n.index.stored % (a.children.length - 1)
      | none => 0 := by
  unfold Switch.inputIndex
  cases n.inPlugs with
  | none => rfl
  | some a =>
    simp only [getValue_of_not_varies _ _ hen, getValue_of_not_varies _ _ hidx, hidx]
    by_cases h1 : n.enabled.stored = false
    · simp [h1]
    · by_cases h2 : a.children.length ≤ 1
      · have : ¬ (a.children.length > 1) := by omega
        simp [h2, this]
      · have : a.children.length > 1 := by omega
        simp [h1, h2, this]

theorem slotRef_isSome (a : Plug) (i : Nat) (h : i < a.children.length) :
    (slotRef a i).isSome = true := by
  unfold slotRef
  rw [List.get?_eq_get h]
  rfl

theorem updateInternalConnection_of_varying (host : Host) (n : Switch) (current : Context)
    (out : Plug) (hout : n.outPlug = some out)
    (hv : variesWithContext n.enabled = true ∨ variesWithContext n.index = true) :
    n.updateInternalConnection host current = .ok { n with outInput := none } := by
  unfold Switch.updateInternalConnection
  rcases hv with hv | hv <;> simp [hout, hv]

theorem updateInternalConnection_of_fixed (host : Host) (n : Switch) (current : Context)
    (a out : Plug) (hin : n.inPlugs = some a) (hout : n.outPlug = some out)
    (hen : variesWithContext n.enabled = false) (hidx : variesWithContext n.index = false) :
    n.updateInternalConnection host current =
      .ok { n with
        outInput :=
          if out.direction = Direction.Out then slotRef a (n.inputIndex host current current)
          else some outRef } := by
  unfold Switch.updateInternalConnection
  simp [hout, hen, hidx, oppositePlug_outRef n a out _ hin hout]

/-- C6 fails as stated: a node with an output root, fixed controls and no input
array ends with no structural connection although neither control varies with
context. -/
theorem updateInternalConnection_routed_iff_varies_counterexample :
    ¬ (∀ (host : Host) (n : Switch) (current : Context) (out : Plug),
        n.outPlug = some out →
        ∃ n', n.updateInternalConnection host current = .ok n' ∧
          (n'.outInput = none ↔
            (variesWithContext n.enabled = true ∨ variesWithContext n.index = true))) := by
  intro h
  obtain ⟨n', hn', hiff⟩ := h exampleHost outputOnly [] (leaf "out" Direction.Out) rfl
  have hup : outputOnly.updateInternalConnection exampleHost [] = .ok outputOnly := rfl
  rw [hup] at hn'
  have hn : outputOnly = n' := Except.ok.inj hn'
  subst hn
  have hv := hiff.mp rfl
  revert hv
  decide

/-- C6, amended: for every node state with an attached output root and an
attached input array that has at least one child, after
`updateInternalConnection` the output has no structural connection if and only
if the Enabled control or the Index control varies with context. -/
theorem updateInternalConnection_routed_iff_varies (host : Host) (n : Switch)
    (current : Context) (a out : Plug)
    (hout : n.outPlug = some out) (hin : n.inPlugs = some a) (hne : a.children ≠ []) :
    ∃ n', n.updateInternalConnection host current = .ok n' ∧
      (n'.outInput = none ↔
        (variesWithContext n.enabled = true ∨ variesWithContext n.index = true)) := by
  by_cases hv : variesWithContext n.enabled = true ∨ variesWithContext n.index = true
  · exact ⟨_, updateInternalConnection_of_varying host n current out hout hv, by simp [hv]⟩
  · have hen : variesWithContext n.enabled = false := by
      cases h : variesWithContext n.enabled <;> simp_all
    have hidx : variesWithContext n.index = false := by
      cases h : variesWithContext n.index <;> simp_all
    refine ⟨_, updateInternalConnection_of_fixed host n current a out hin hout hen hidx, ?_⟩
    have hsome := slotRef_isSome a _ (inputIndex_lt host n a current current hin hne)
    constructor
    · intro hnone
      exfalso
      simp only at hnone
      split at hnone
      · rw [hnone] at hsome
        exact absurd hsome (by decide)
      · exact absurd hnone (by simp)
    · intro h
      exact absurd h hv

theorem updateInternalConnection_routed_iff_varies_witness :
    scenarioC.outPlug = some (leaf "out" Direction.Out) ∧
    scenarioC.inPlugs = some (.mk "in" Direction.In PlugType.ArrayPlug
          [leaf "in0" Direction.In, leaf "in1" Direction.In, leaf "in2" Direction.In,
            leaf "in3" Direction.In]) ∧
    ∃ n', scenarioC.updateInternalConnection exampleHost [] = .ok n' ∧
      (n'.outInput = none ↔
        (variesWithContext scenarioC.enabled = true ∨ variesWithContext scenarioC.index = true)) :=
  ⟨rfl, rfl,
    updateInternalConnection_routed_iff_varies exampleHost scenarioC [] _ _ rfl rfl (by simp [Plug.children])⟩

theorem updateInternalConnection_of_fixed_wire (host : Host) (m : Switch) (current : Context)
    (a out : Plug) (hin : m.inPlugs = some a) (hout : m.outPlug = some out)
    (hdir : out.direction = Direction.Out)
    (hen : variesWithContext m.enabled = false) (hidx : variesWithContext m.index = false) :
    m.updateInternalConnection host current =
      .ok { m with
        outInput :=
          slotRef a
            (if m.enabled.stored = false ∨ a.children.length ≤ 1 then 0
              else toSizeT m.index.stored % (a.children.length - 1)) } := by
  have hi := inputIndex_of_fixed_controls host m current current hen hidx
  simp only [hin] at hi
  rw [updateInternalConnection_of_fixed host m current a out hin hout hen hidx, hi]
  simp only [hdir, if_true]

/-- C7 fails as stated: with the index driven by a plug that holds `-2` and
does not vary with context, four slots and Enabled true, the output is wired
to `in2`, the slot at `(2 ^ 64 - 2) mod 3`, and not to the slot at the stored
index modulo 3, which is `in1` (and `in0` if the negative index is first
truncated to 0). -/
theorem updateInternalConnection_wires_active_slot_counterexample :
    ¬ (∀ (host : Host) (n : Switch) (current : Context) (a out : Plug),
        n.outPlug = some out → out.direction = Direction.Out → n.inPlugs = some a →
        variesWithContext n.enabled = false → variesWithContext n.index = false →
        ∃ n', n.updateInternalConnection host current = .ok n' ∧
          n'.outInput =
            slotRef a
              (if n.enabled.stored = false ∨ a.children.length ≤ 1 then 0
                else (n.index.stored % ((a.children.length - 1 : Nat) : Int)).toNat)) := by
  intro h
  obtain ⟨n', hn', hwire⟩ := h exampleHost negativeIndexA []
    (.mk "in" Direction.In PlugType.ArrayPlug
      [leaf "in0" Direction.In, leaf "in1" Direction.In, leaf "in2" Direction.In,
        leaf "in3" Direction.In])
    (leaf "out" Direction.Out) rfl rfl rfl rfl rfl
  have hup : negativeIndexA.updateInternalConnection exampleHost [] =
      .ok { negativeIndexA with outInput := some ["in2", "in"] } := by
    rw [updateInternalConnection_of_fixed_wire exampleHost negativeIndexA [] _
      (leaf "out" Direction.Out) rfl rfl rfl rfl rfl]
    rfl
  rw [hup] at hn'
  have hn := Except.ok.inj hn'
  subst hn
  have hformula :
      slotRef (.mk "in" Direction.In PlugType.ArrayPlug
          [leaf "in0" Direction.In, leaf "in1" Direction.In, leaf "in2" Direction.In,
            leaf "in3" Direction.In])
        (if negativeIndexA.enabled.stored = false ∨ 4 ≤ 1 then 0
          else (negativeIndexA.index.stored % ((4 - 1 : Nat) : Int)).toNat) =
        some ["in1", "in"] := by
    decide
  have hwire' : (some ["in2", "in"] : Option Ref) = some ["in1", "in"] :=
    hwire.trans hformula
  revert hwire'
  decide

/-- C7, amended: with input array and output root attached and neither control
varying with context, `updateInternalConnection` leaves the output root wired
to exactly `inputSlots[a]`, where `a` is 0 if Enabled is false or the array has
at most one child and otherwise the stored index converted to `size_t` (a
negative `v` counting as `v + 2 ^ 64`) modulo (array size - 1), whatever the
output was connected to before; that slot exists as soon as the array has a
child, and for a stored index in `0 ≤ v < 2 ^ 31` the conversion changes
nothing. -/
theorem updateInternalConnection_wires_active_slot (host : Host) (n : Switch)
    (current : Context) (a out : Plug)
    (hout : n.outPlug = some out) (hdir : out.direction = Direction.Out)
    (hin : n.inPlugs = some a)
    (hen : variesWithContext n.enabled = false) (hidx : variesWithContext n.index = false) :
    ∃ n', n.updateInternalConnection host current = .ok n' ∧
      n'.outInput =
        slotRef a
          (if n.enabled.stored = false ∨ a.children.length ≤ 1 then 0
            else toSizeT n.index.stored % (a.children.length - 1)) ∧
      (a.children ≠ [] → n'.outInput.isSome = true) ∧
      n'.children = n.children ∧
      (0 ≤ n.index.stored → n.index.stored < 2 ^ 31 →
        toSizeT n.index.stored = n.index.stored.toNat) ∧
      (n.index.stored < 0 → -(2 : Int) ^ 31 ≤ n.index.stored →
        toSizeT n.index.stored = (n.index.stored + 2 ^ 64).toNat) := by
  refine ⟨_, updateInternalConnection_of_fixed_wire host n current a out hin hout hdir hen hidx,
    rfl, ?_, rfl, toSizeT_of_nonneg _, ?_⟩
  · intro hne
    have hi := inputIndex_of_fixed_controls host n current current hen hidx
    simp only [hin] at hi
    have hlt := inputIndex_lt host n a current current hin hne
    rw [hi] at hlt
    exact slotRef_isSome a _ hlt
  · intro hneg hlow
    unfold toSizeT
    have h : n.index.stored % 2 ^ 64 = n.index.stored + 2 ^ 64 := by
      rw [← Int.add_emod_self]
      exact Int.emod_eq_of_lt (by omega) (by omega)
    rw [h]

theorem updateInternalConnection_wires_active_slot_witness :
    (∃ n', negativeIndexA.updateInternalConnection exampleHost [] = .ok n' ∧
      n'.outInput = some ["in2", "in"]) ∧
    ∃ n', ({ scenarioA with outInput := some ["in0", "in"] } : Switch).updateInternalConnection
        exampleHost [] = .ok n' ∧
      n'.outInput =
        slotRef (.mk "in" Direction.In PlugType.ArrayPlug
          [leaf "in0" Direction.In, leaf "in1" Direction.In, leaf "in2" Direction.In,
            leaf "in3" Direction.In])
          (if (fixed true : Control Bool).stored = false ∨ 4 ≤ 1 then 0
            else toSizeT 5 % (4 - 1)) ∧
      (([leaf "in0" Direction.In, leaf "in1" Direction.In, leaf "in2" Direction.In,
            leaf "in3" Direction.In] : List Plug) ≠ [] → n'.outInput.isSome = true) ∧
      n'.children = scenarioA.children ∧
      ((0 : Int) ≤ 5 → (5 : Int) < 2 ^ 31 → toSizeT 5 = (5 : Int).toNat) ∧
      ((5 : Int) < 0 → -(2 : Int) ^ 31 ≤ 5 → toSizeT 5 = ((5 : Int) + 2 ^ 64).toNat) :=
  ⟨by
      obtain ⟨n', h1, h2, _⟩ := updateInternalConnection_wires_active_slot exampleHost
        negativeIndexA [] _ (leaf "out" Direction.Out) rfl rfl rfl rfl rfl
      exact ⟨n', h1, h2.trans (by decide)⟩,
    updateInternalConnection_wires_active_slot exampleHost
      { scenarioA with outInput := some ["in0", "in"] } [] _ (leaf "out" Direction.Out)
      rfl rfl rfl rfl rfl⟩

theorem descendant_nil (base r : Ref) (d : Plug) : ¬ Descendant base [] r d := by
  intro h
  cases h with
  | child hc => simp at hc
  | deeper hc _ => simp at hc

theorem descendant_cons (base r : Ref) (c d : Plug) (cs : List Plug) :
    Descendant base (c :: cs) r d ↔
      (r = c.name :: base ∧ d = c) ∨ Descendant (c.name :: base) c.children r d ∨
        Descendant base cs r d := by
  constructor
  · intro h
    cases h with
    | child hc =>
      rcases List.mem_cons.mp hc with h | h
      · subst h
        exact Or.inl ⟨rfl, rfl⟩
      · exact Or.inr (Or.inr (Descendant.child h))
    | deeper hc hd =>
      rcases List.mem_cons.mp hc with h | h
      · subst h
        exact Or.inr (Or.inl hd)
      · exact Or.inr (Or.inr (Descendant.deeper h hd))
  · rintro (⟨hr, hd⟩ | h | h)
    · subst hr hd
      exact Descendant.child (List.mem_cons_self _ _)
    · exact Descendant.deeper (List.mem_cons_self _ _) h
    · cases h with
      | child hc => exact Descendant.child (List.mem_cons_of_mem _ hc)
      | deeper hc hd => exact Descendant.deeper (List.mem_cons_of_mem _ hc) hd

mutual
theorem mem_visitOutputPlugs (base : Ref) : (p : Plug) → (r : Ref) → (d : Plug) →
    ((r, d) ∈ visitOutputPlugs base p ↔
      d.direction = Direction.Out ∧
        ((r = p.name :: base ∧ d = p) ∨ Descendant (p.name :: base) p.children r d))
  | .mk name dir t children, r, d => by
    have ih := mem_recursiveOutputPlugs (name :: base) children r d
    simp only [visitOutputPlugs, List.mem_append, ih, Plug.name, Plug.children]
    by_cases hdir : dir = Direction.Out
    · subst hdir
      simp only [if_true, List.mem_singleton, Prod.mk.injEq]
      constructor
      · rintro (⟨hr, hd⟩ | ⟨h1, h2⟩)
        · subst hd
          exact ⟨rfl, Or.inl ⟨hr, rfl⟩⟩
        · exact ⟨h1, Or.inr h2⟩
      · rintro ⟨h1, ⟨hr, hd⟩ | h2⟩
        · exact Or.inl ⟨hr, hd⟩
        · exact Or.inr ⟨h1, h2⟩
    · simp only [hdir, if_false, List.not_mem_nil, false_or]
      constructor
      · rintro ⟨h1, h2⟩
        exact ⟨h1, Or.inr h2⟩
      · rintro ⟨h1, ⟨_, hd⟩ | h2⟩
        · subst hd
          exact absurd h1 hdir
        · exact ⟨h1, h2⟩
theorem mem_recursiveOutputPlugs (base : Ref) : (cs : List Plug) → (r : Ref) → (d : Plug) →
    ((r, d) ∈ recursiveOutputPlugs base cs ↔
      d.direction = Direction.Out ∧ Descendant base cs r d)
  | [], r, d => by
    simp [recursiveOutputPlugs, descendant_nil]
  | c :: cs, r, d => by
    have ih1 := mem_visitOutputPlugs base c r d
    have ih2 := mem_recursiveOutputPlugs base cs r d
    simp only [recursiveOutputPlugs, List.mem_append, ih1, ih2, descendant_cons]
    tauto
end

/-- C9: when `affects` is asked about the Enabled or the Index control of a
node with an attached output root, what it appends after the base class's
plugs is the output root alone if the root has no children, and otherwise
exactly the pointers of the descendants of the output root, at any depth, that
have output direction and no children. -/
theorem affects_control_appends_output_leaves (host : Host) (n : Switch) (input : Ref)
    (outputs : List Ref) (out : Plug)
    (hout : n.outPlug = some out) (hctl : input = enabledPlug ∨ input = indexPlug) :
    ∃ extra, n.affects host input outputs = .ok (outputs ++ host.baseAffects input ++ extra) ∧
      (out.children = [] → extra = [outRef]) ∧
      (out.children ≠ [] → ∀ r, r ∈ extra ↔
        ∃ d, Descendant outRef out.children r d ∧ d.direction = Direction.Out ∧
          d.children = []) := by
  by_cases hc : out.children = []
  · refine ⟨[outRef], ?_, fun _ => rfl, fun h => absurd hc h⟩
    simp [Switch.affects, hctl, hout, hc]
  · have hlen : out.children.length ≠ 0 := by
      intro h
      exact hc (List.length_eq_zero.mp h)
    refine ⟨((recursiveOutputPlugs outRef out.children).filter
        (fun it => it.2.children.length == 0)).map Prod.fst, ?_, fun h => absurd h hc, ?_⟩
    · simp [Switch.affects, hctl, hout, hc]
    · intro _ r
      simp only [List.mem_map, List.mem_filter, Prod.exists, exists_and_right, exists_eq_right,
        mem_recursiveOutputPlugs, beq_iff_eq, List.length_eq_zero]
      constructor
      · rintro ⟨d, ⟨hdir, hd⟩, hleaf⟩
        exact ⟨d, hd, hdir, hleaf⟩
      · rintro ⟨d, hd, hdir, hleaf⟩
        exact ⟨d, ⟨hdir, hd⟩, hleaf⟩

theorem affects_control_appends_output_leaves_witness :
    scenarioE.affects exampleHost enabledPlug [] = .ok [["X", "out"], ["Y", "out"]] ∧
    ∃ extra, scenarioE.affects exampleHost enabledPlug [] =
        .ok ([] ++ exampleHost.baseAffects enabledPlug ++ extra) ∧
      ((Plug.mk "out" Direction.Out PlugType.ValuePlug
          [leaf "X" Direction.Out, leaf "Y" Direction.Out]).children = [] → extra = [outRef]) ∧
      ((Plug.mk "out" Direction.Out PlugType.ValuePlug
          [leaf "X" Direction.Out, leaf "Y" Direction.Out]).children ≠ [] → ∀ r, r ∈ extra ↔
        ∃ d, Descendant outRef (Plug.mk "out" Direction.Out PlugType.ValuePlug
            [leaf "X" Direction.Out, leaf "Y" Direction.Out]).children r d ∧
          d.direction = Direction.Out ∧ d.children = []) :=
  ⟨rfl, affects_control_appends_output_leaves exampleHost scenarioE enabledPlug [] _ rfl
    (Or.inl rfl)⟩

/-- C10: asked about the input leaf `in.in0.a.b` of a node whose slots and
output have the shape `a.b`, `affects` does not append the output plug
`out.a.b` at the same name path: the resolver applies the collected names
`[b, a]` from the front and faults on the missing child `b` of `out`.  Where
both `a.b` and `b.a` exist it appends the plug at the reversed path
`out.b.a`. -/
theorem affects_nested_input_reversed :
    (nestedNode.plugAt ["b", "a", "in0", "in"]).map Plug.direction = some Direction.In ∧
    (nestedNode.plugAt ["b", "a", "out"]).isSome = true ∧
    nestedNode.affects exampleHost ["b", "a", "in0", "in"] [] =
      .error Fault.nullDereference ∧
    crossedNode.affects exampleHost ["b", "a", "in0", "in"] [] = .ok [["a", "b", "out"]] :=
  ⟨rfl, rfl, rfl, rfl⟩

/-! ## Setup -/

theorem oppositePlug_outRef_total (n : Switch) (i : Nat) :
    ∃ r, n.oppositePlug outRef i = .ok r := by
  cases hin : n.inPlugs with
  | none => exact ⟨none, by simp [Switch.oppositePlug, hin]⟩
  | some a =>
    cases hout : n.outPlug with
    | none => exact ⟨none, by simp [Switch.oppositePlug, hin, hout]⟩
    | some out => exact ⟨_, oppositePlug_outRef n a out i hin hout⟩

theorem updateInternalConnection_total (host : Host) (n : Switch) (current : Context) :
    ∃ x, n.updateInternalConnection host current = .ok { n with outInput := x } := by
  unfold Switch.updateInternalConnection
  cases n.outPlug with
  | none => exact ⟨n.outInput, rfl⟩
  | some out =>
    by_cases hv : (variesWithContext n.enabled || variesWithContext n.index) = true
    · exact ⟨none, by simp only [hv, if_true]⟩
    · obtain ⟨r, hr⟩ := oppositePlug_outRef_total n (n.inputIndex host current current)
      exact ⟨r, by simp only [hv, hr]; rfl⟩

theorem childAdded_total (host : Host) (n : Switch) (current : Context) (child : Ref) :
    ∃ x, n.childAdded host current child = .ok { n with outInput := x } := by
  obtain ⟨x, hx⟩ := updateInternalConnection_total host n current
  unfold Switch.childAdded
  simp only
  split
  · exact ⟨x, hx⟩
  · split
    · exact ⟨x, hx⟩
    · split
      · exact ⟨x, hx⟩
      · exact ⟨n.outInput, rfl⟩

theorem addChild_total (host : Host) (n : Switch) (current : Context) (child : Plug) :
    ∃ x, n.addChild host current child =
      .ok { children := n.children ++ [child], index := n.index, enabled := n.enabled,
            outInput := x } := by
  obtain ⟨x, hx⟩ :=
    childAdded_total host { n with children := n.children ++ [child] } current [child.name]
  exact ⟨x, hx⟩

theorem getChild_append (cs ds : List Plug) (name : String) :
    getChild (cs ++ ds) name = (getChild cs name).or (getChild ds name) := by
  simp [getChild]

theorem createCounterpart_name (plug : Plug) (name : String) (d : Direction) :
    (createCounterpart plug name d).name = name := by
  cases plug
  rfl

theorem setup_of_attached (host : Host) (n : Switch) (current : Context) (plug : Plug)
    (h : n.inPlugs.isSome = true ∨ n.outPlug.isSome = true) :
    ∃ e, n.setup host current plug = .ok (n, some e) := by
  unfold Switch.setup
  by_cases hin : n.inPlugs.isSome = true
  · exact ⟨Exception.alreadyHasIn, by simp only [hin, if_true]⟩
  · have hout : n.outPlug.isSome = true := h.resolve_left hin
    exact ⟨Exception.alreadyHasOut, by simp only [hin, hout, if_true]; rfl⟩

theorem setup_of_detached (host : Host) (n : Switch) (current : Context) (plug : Plug)
    (hin : n.inPlugs = none) (hout : n.outPlug = none) :
    ∃ x, n.setup host current plug =
      .ok ({ children :=
              n.children ++
                [Plug.mk "in" Direction.In PlugType.ArrayPlug
                  [createCounterpart plug "in0" Direction.In]] ++
                [createCounterpart plug "out" Direction.Out],
             index := n.index, enabled := n.enabled, outInput := x }, none) := by
  obtain ⟨x1, h1⟩ := addChild_total host n current
    (Plug.mk "in" Direction.In PlugType.ArrayPlug [createCounterpart plug "in0" Direction.In])
  obtain ⟨x2, h2⟩ := addChild_total host
    { children :=
        n.children ++
          [Plug.mk "in" Direction.In PlugType.ArrayPlug
            [createCounterpart plug "in0" Direction.In]],
      index := n.index, enabled := n.enabled, outInput := x1 }
    current (createCounterpart plug "out" Direction.Out)
  refine ⟨x2, ?_⟩
  unfold Switch.setup
  simp only [hin, hout, Option.isSome_none, Bool.false_eq_true, if_false, h1, h2]

/-- C11: `setup` throws if and only if the node already has an `"in"` array or
an `"out"` plug, and then leaves the node exactly as it was.  When it does not
throw, the node has an output root afterwards and, provided no plug of
another type already carried the name `"in"`, an input array as well; and every
further `setup` call on the resulting node throws and leaves it unchanged. -/
theorem setup_check_before_mutate (host : Host) (n : Switch) (current : Context)
    (template : Plug) :
    ∃ n' thrown, n.setup host current template = .ok (n', thrown) ∧
      (thrown.isSome = true ↔ (n.inPlugs.isSome = true ∨ n.outPlug.isSome = true)) ∧
      (thrown.isSome = true → n' = n) ∧
      (thrown = none →
        n'.outPlug.isSome = true ∧
        ((∀ p, getChild n.children "in" = some p → p.type = PlugType.ArrayPlug) →
          n'.inPlugs.isSome = true) ∧
        ∀ (cur2 : Context) (template2 : Plug),
          ∃ e, n'.setup host cur2 template2 = .ok (n', some e)) := by
  by_cases h : n.inPlugs.isSome = true ∨ n.outPlug.isSome = true
  · obtain ⟨e, he⟩ := setup_of_attached host n current template h
    exact ⟨n, some e, he, by simp [h], fun _ => rfl, fun hn => by simp at hn⟩
  · have hin : n.inPlugs = none := by
      cases hi : n.inPlugs with
      | none => rfl
      | some a => exact absurd (Or.inl (by simp [hi])) h
    have hout : n.outPlug = none := by
      cases ho : n.outPlug with
      | none => rfl
      | some a => exact absurd (Or.inr (by simp [ho])) h
    obtain ⟨x, hx⟩ := setup_of_detached host n current template hin hout
    have hout' : getChild n.children "out" = none := hout
    have hO : (Switch.outPlug
        { children :=
            n.children ++
              [Plug.mk "in" Direction.In PlugType.ArrayPlug
                [createCounterpart template "in0" Direction.In]] ++
              [createCounterpart template "out" Direction.Out],
          index := n.index, enabled := n.enabled, outInput := x }).isSome = true := by
      have h2 : getChild [createCounterpart template "out" Direction.Out] "out" =
          some (createCounterpart template "out" Direction.Out) := by
        simp [getChild, createCounterpart_name]
      show (getChild _ "out").isSome = true
      rw [getChild_append, getChild_append, hout', h2]
      rfl
    refine ⟨_, none, hx, by simp [h], fun hs => by simp at hs, fun _ => ⟨hO, ?_, ?_⟩⟩
    · intro hwf
      have hnone : getChild n.children "in" = none := by
        cases hg : getChild n.children "in" with
        | none => rfl
        | some p =>
          have ht := hwf p hg
          simp [Switch.inPlugs, hg, ht] at hin
      have h1 : getChild (n.children ++
            [Plug.mk "in" Direction.In PlugType.ArrayPlug
              [createCounterpart template "in0" Direction.In]] ++
            [createCounterpart template "out" Direction.Out]) "in" =
          some (Plug.mk "in" Direction.In PlugType.ArrayPlug
            [createCounterpart template "in0" Direction.In]) := by
        rw [getChild_append, getChild_append, hnone]
        rfl
      simp only [Switch.inPlugs, h1]
      rfl
    · intro cur2 template2
      exact setup_of_attached host _ cur2 template2 (Or.inr hO)

theorem setup_check_before_mutate_witness :
    (emptyNode.setup exampleHost [] (nested "template" Direction.In)).toOption.map
        (fun r => (r.1.children.map Plug.name, r.1.outInput, r.2)) =
      some (["in", "out"], some ["in0", "in"], none) ∧
    ∃ n' thrown, emptyNode.setup exampleHost [] (nested "template" Direction.In) =
        .ok (n', thrown) ∧
      (thrown.isSome = true ↔
        (emptyNode.inPlugs.isSome = true ∨ emptyNode.outPlug.isSome = true)) ∧
      (thrown.isSome = true → n' = emptyNode) ∧
      (thrown = none →
        n'.outPlug.isSome = true ∧
        ((∀ p, getChild emptyNode.children "in" = some p → p.type = PlugType.ArrayPlug) →
          n'.inPlugs.isSome = true) ∧
        ∀ (cur2 : Context) (template2 : Plug),
          ∃ e, n'.setup exampleHost cur2 template2 = .ok (n', some e)) :=
  ⟨rfl, setup_check_before_mutate exampleHost emptyNode [] (nested "template" Direction.In)⟩

/-! ## Missing topology -/

theorem findAncestor_eq_none (plug : Ref) :
    ∀ names : List String,
      ¬ outRef <:+ plug → (∀ x, ¬ [x, "in"] <:+ plug) → findAncestor plug names = none := by
  induction plug with
  | nil => intro names _ _; rfl
  | cons name parent ih =>
    intro names hout hin
    have h1 : parent ≠ inRef := by
      intro h
      exact hin name (by rw [h]; exact List.suffix_refl _)
    have h2 : name :: parent ≠ outRef := by
      intro h
      exact hout (h ▸ List.suffix_refl _)
    have ihp := ih (names ++ [name])
      (fun h => hout (h.trans (List.suffix_cons _ _)))
      (fun x h => hin x (h.trans (List.suffix_cons _ _)))
    simp only [findAncestor, h1, h2, or_self, if_false, ihp]

theorem oppositePlug_of_unplaced (n : Switch) (plug : Ref) (i : Nat)
    (hout : ¬ outRef <:+ plug) (hin : ∀ x, ¬ [x, "in"] <:+ plug) :
    n.oppositePlug plug i = .ok none := by
  unfold Switch.oppositePlug
  cases n.inPlugs <;> cases n.outPlug <;> simp [findAncestor_eq_none plug [] hout hin]

/-- C12: the resolver returns none, for every plug and slot index, when the
input array or the output root is not attached, and when the plug lies neither
at or below the output root nor at or below a child of the input array, as for
the Index control, the Enabled control and the input array itself: the upward
walk is a total function that ends with a null ancestor at the top of the
tree.  `activeInPlug` returns none when the input array is not attached. -/
theorem read_queries_none_on_missing_topology (host : Host) (n : Switch) (plug : Ref)
    (i : Nat) (current : Context) :
    ((n.inPlugs = none ∨ n.outPlug = none) → n.oppositePlug plug i = .ok none) ∧
    ((¬ outRef <:+ plug ∧ ∀ x, ¬ [x, "in"] <:+ plug) →
      findAncestor plug [] = none ∧ n.oppositePlug plug i = .ok none) ∧
    n.oppositePlug indexPlug i = .ok none ∧
    n.oppositePlug enabledPlug i = .ok none ∧
    n.oppositePlug inRef i = .ok none ∧
    (n.inPlugs = none → n.activeInPlug host current = none) := by
  have hlen : ∀ (x y : String) (r : Ref), r.length = 1 → ¬ [x, y] <:+ r := by
    intro x y r hr h
    have := h.length_le
    simp [hr] at this
  refine ⟨?_, ?_, ?_, ?_, ?_, ?_⟩
  · rintro (h | h)
    · simp [Switch.oppositePlug, h]
    · cases hin : n.inPlugs <;> simp [Switch.oppositePlug, h]
  · rintro ⟨hout, hin⟩
    exact ⟨findAncestor_eq_none plug [] hout hin, oppositePlug_of_unplaced n plug i hout hin⟩
  · exact oppositePlug_of_unplaced n indexPlug i (by decide) (fun x => hlen x "in" _ rfl)
  · exact oppositePlug_of_unplaced n enabledPlug i (by decide) (fun x => hlen x "in" _ rfl)
  · exact oppositePlug_of_unplaced n inRef i (by decide) (fun x => hlen x "in" _ rfl)
  · intro h
    simp [Switch.activeInPlug, h]

theorem read_queries_none_on_missing_topology_witness :
    (outputOnly.inPlugs = none ∨ outputOnly.outPlug = none) ∧
    outputOnly.oppositePlug outRef 0 = .ok none ∧
    (¬ outRef <:+ ["user"] ∧ ∀ x, ¬ [x, "in"] <:+ ["user"]) ∧
    scenarioA.oppositePlug ["user"] 1 = .ok none ∧
    outputOnly.activeInPlug exampleHost [] = none :=
  ⟨Or.inl rfl,
    (read_queries_none_on_missing_topology exampleHost outputOnly outRef 0 []).1 (Or.inl rfl),
    ⟨by decide, fun x h => by have := h.length_le; simp at this⟩,
    ((read_queries_none_on_missing_topology exampleHost scenarioA ["user"] 1 []).2.1
      ⟨by decide, fun x h => by have := h.length_le; simp at this⟩).2,
    (read_queries_none_on_missing_topology exampleHost outputOnly outRef 0 []).2.2.2.2.2 rfl⟩

/-! ## Shape mismatch -/

/-- C13: the descent does step down from a missing plug.  With a slot index
beyond the array (`out.X` of scenario E, slot 7) the opposite ancestor is null
and `getChild` is called on it; with diverged shapes (`out.a.a` against a leaf
slot) the first lookup is null and the second is called on it; and on matching
shapes two levels deep the names are applied from the front, so the first
lookup already fails.  In each case the result is a null dereference, not
none.  Only a failure at the last step of the descent gives none. -/
theorem oppositePlug_descends_from_missing_plug :
    slotRef (.mk "in" Direction.In PlugType.ArrayPlug
        [.mk "in0" Direction.In PlugType.ValuePlug [leaf "X" Direction.In, leaf "Y" Direction.In],
          .mk "in1" Direction.In PlugType.ValuePlug
            [leaf "X" Direction.In, leaf "Y" Direction.In]]) 7 = none ∧
    scenarioE.oppositePlug ["X", "out"] 7 = .error Fault.nullDereference ∧
    (mismatchedNode.plugAt ["a", "a", "out"]).isSome = true ∧
    mismatchedNode.plugAt ["a", "in0", "in"] = none ∧
    mismatchedNode.oppositePlug ["a", "a", "out"] 0 = .error Fault.nullDereference ∧
    nestedNode.oppositePlug ["b", "a", "out"] 1 = .error Fault.nullDereference ∧
    mismatchedNode.oppositePlug ["a", "out"] 0 = .ok none :=
  ⟨rfl, rfl, rfl, rfl, rfl, rfl, rfl⟩

/-! ## Bounds of the index -/

/-- C14: with Enabled true and an input array of size `N > 1`, whatever `int`
the Index control delivers (stored or computed upstream, negative values
included, converted to `size_t` modulo `2 ^ 64`), the divisor `N - 1` of the
modulo is not zero and the result is the converted value modulo `N - 1`,
which is below `N - 1`: it is the index of an existing slot and never that of
the trailing slot `N - 1`. -/
theorem inputIndex_lt_real_slots (host : Host) (n : Switch) (current context : Context)
    (a : Plug)
    (hen : n.enabled.getValue current = true) (hin : n.inPlugs = some a)
    (hN : 1 < a.children.length) :
    a.children.length - 1 ≠ 0 ∧
    n.inputIndex host current context =
      toSizeT (if variesWithContext n.index then n.index.computed (host.globalScope context)
        else n.index.stored) % (a.children.length - 1) ∧
    n.inputIndex host current context < a.children.length - 1 ∧
    n.inputIndex host current context ≠ a.children.length - 1 ∧
    (∃ c, a.children.get? (n.inputIndex host current context) = some c) ∧
    (∀ v : Int, toSizeT v < 2 ^ 64 ∧ (v < 0 → -(2 : Int) ^ 31 ≤ v → toSizeT v = (v + 2 ^ 64).toNat)) := by
  have hne : a.children.length - 1 ≠ 0 := by omega
  have heq : n.inputIndex host current context =
      toSizeT (if variesWithContext n.index then n.index.computed (host.globalScope context)
        else n.index.stored) % (a.children.length - 1) := by
    unfold Switch.inputIndex
    simp only [hin, hen, hN, gt_iff_lt, decide_True, Bool.and_self, if_true]
    by_cases hv : variesWithContext n.index = true
    · simp [hv, Control.getValue]
    · simp [hv, Control.getValue]
  have hlt : n.inputIndex host current context < a.children.length - 1 := by
    rw [heq]
    exact Nat.mod_lt _ (by omega)
  refine ⟨hne, heq, hlt, by omega, ?_, ?_⟩
  · have h : n.inputIndex host current context < a.children.length := by omega
    exact ⟨_, List.get?_eq_get h⟩
  · intro v
    unfold toSizeT
    have hpos : (0 : Int) < 2 ^ 64 := by norm_num
    have h1 := Int.emod_nonneg v (ne_of_gt hpos)
    have h2 := Int.emod_lt_of_pos v hpos
    refine ⟨by omega, ?_⟩
    intro hneg hlow
    have : v % 2 ^ 64 = v + 2 ^ 64 := by
      rw [← Int.add_emod_self]
      exact Int.emod_eq_of_lt (by omega) (by omega)
    rw [this]

theorem inputIndex_lt_real_slots_witness :
    scenarioC.enabled.getValue [("frame", -3)] = true ∧
    1 < 4 ∧
    scenarioC.inputIndex exampleHost [("frame", -3)] [("frame", -3)] =
      (2 ^ 64 - 4) % 3 ∧
    scenarioC.inputIndex exampleHost [("frame", -3)] [("frame", -3)] < 4 - 1 :=
  ⟨rfl, by decide,
    (inputIndex_lt_real_slots exampleHost scenarioC [("frame", -3)] [("frame", -3)] _ rfl rfl
      (by decide)).2.1,
    (inputIndex_lt_real_slots exampleHost scenarioC [("frame", -3)] [("frame", -3)] _ rfl rfl
      (by decide)).2.2.1⟩

/-! ## Idempotence -/

/-- C15: `updateInternalConnection` is idempotent.  For every node state a
first run returns a state on which a second run, under any ambient context,
returns that same state; and a node without an output root is left exactly as
it was. -/
theorem updateInternalConnection_idempotent (host : Host) (n : Switch)
    (current current2 : Context) :
    ∃ n1, n.updateInternalConnection host current = .ok n1 ∧
      n1.updateInternalConnection host current2 = .ok n1 ∧
      (n.outPlug = none → n1 = n) := by
  cases hout : n.outPlug with
  | none =>
    have h : n.updateInternalConnection host current = .ok n := by
      simp [Switch.updateInternalConnection, hout]
    have h2 : n.updateInternalConnection host current2 = .ok n := by
      simp [Switch.updateInternalConnection, hout]
    exact ⟨n, h, h2, fun _ => rfl⟩
  | some out =>
    by_cases hv : variesWithContext n.enabled = true ∨ variesWithContext n.index = true
    · refine ⟨_, updateInternalConnection_of_varying host n current out hout hv, ?_,
        fun h => by simp at h⟩
      exact updateInternalConnection_of_varying host { n with outInput := none } current2 out
        hout hv
    · have hen : variesWithContext n.enabled = false := by
        cases h : variesWithContext n.enabled <;> simp_all
      have hidx : variesWithContext n.index = false := by
        cases h : variesWithContext n.index <;> simp_all
      obtain ⟨r, hr⟩ := oppositePlug_outRef_total n (n.inputIndex host current current)
      have hr2 : n.oppositePlug outRef (n.inputIndex host current2 current2) = .ok r := by
        rw [inputIndex_of_fixed_controls host n current2 current2 hen hidx,
          ← inputIndex_of_fixed_controls host n current current hen hidx, hr]
      refine ⟨{ n with outInput := r }, ?_, ?_, fun h => by simp at h⟩
      · unfold Switch.updateInternalConnection
        simp [hout, hen, hidx, hr]
      · unfold Switch.updateInternalConnection
        have ho : Switch.outPlug { n with outInput := r } = some out := hout
        simp only [ho, hen, hidx, Bool.or_self, Bool.false_eq_true, if_false,
          oppositePlug_setOutInput, inputIndex_setOutInput, hr2]

/-! ## Corresponding input -/

theorem correspondingInput_congr (n m : Switch) (h : n.children = m.children) (output : Ref) :
    n.correspondingInput output = m.correspondingInput output :=
  oppositePlug_congr n m h output 0

/-- C16: `correspondingInput( o )` is `oppositePlug( o, 0 )`, but for the
output sub-plug `out.a.b` of a node whose slots have the same shape that is not
the plug `in.in0.a.b` at the same name path: the names are applied from the
front and the call ends in a null dereference; where both `a.b` and `b.a`
exist the result is the plug at the reversed path.  One level deep the result
is the plug at the same path. -/
theorem correspondingInput_nested_reversed :
    (nestedNode.plugAt ["b", "a", "in0", "in"]).isSome = true ∧
    nestedNode.correspondingInput ["b", "a", "out"] = .error Fault.nullDereference ∧
    crossedNode.correspondingInput ["b", "a", "out"] = .ok (some ["a", "b", "in0", "in"]) ∧
    nestedNode.correspondingInput ["a", "out"] = .ok (some ["a", "in0", "in"]) :=
  ⟨rfl, rfl, rfl, rfl⟩

/-! ## Involution -/

theorem findAncestor_output (rel : List String) :
    ∀ names : List String, findAncestor (rel ++ outRef) names = some (outRef, names ++ rel) := by
  induction rel with
  | nil => intro names; simp [findAncestor, outRef, inRef]
  | cons x rel ih =>
    intro names
    have h1 : rel ++ outRef ≠ inRef := by
      intro h
      have := congrArg List.getLast? h
      simp [outRef, inRef] at this
    have h2 : x :: (rel ++ outRef) ≠ outRef := by
      intro h
      have := congrArg List.length h
      simp [outRef] at this
    show findAncestor (x :: (rel ++ outRef)) names = _
    rw [findAncestor, if_neg (not_or.mpr ⟨h1, h2⟩), ih]
    simp

theorem findAncestor_input (rel : List String) (s : String) :
    ∀ names : List String,
      findAncestor (rel ++ [s, "in"]) names = some ([s, "in"], names ++ rel) := by
  induction rel with
  | nil => intro names; simp [findAncestor, inRef]
  | cons x rel ih =>
    intro names
    have h1 : rel ++ [s, "in"] ≠ inRef := by
      intro h
      have := congrArg List.length h
      simp [inRef] at this
    have h2 : x :: (rel ++ [s, "in"]) ≠ outRef := by
      intro h
      have := congrArg List.length h
      simp [outRef] at this
    show findAncestor (x :: (rel ++ [s, "in"])) names = _
    rw [findAncestor, if_neg (not_or.mpr ⟨h1, h2⟩), ih]
    simp

theorem descend_none_ne_some (n : Switch) (names : List String) (q : Ref) :
    n.descend none names ≠ .ok (some q) := by
  cases names with
  | nil => simp [Switch.descend]
  | cons name names => simp [Switch.descend]

theorem descend_eq_some (n : Switch) (names : List String) :
    ∀ (r q : Ref), n.descend (some r) names = .ok (some q) → q = names.reverse ++ r := by
  induction names with
  | nil =>
    intro r q h
    simp [Switch.descend] at h
    simp [h]
  | cons name names ih =>
    intro r q h
    simp only [Switch.descend] at h
    cases hc : n.childrenAt r with
    | none =>
      rw [hc] at h
      exact absurd h (descend_none_ne_some n names q)
    | some cs =>
      simp only [hc] at h
      cases hg : getChild cs name with
      | none =>
        simp only [hg, Option.map_none'] at h
        exact absurd h (descend_none_ne_some n names q)
      | some c =>
        simp only [hg, Option.map_some'] at h
        have := ih (name :: r) q h
        simp [this]

theorem childrenAt_cons (n : Switch) (name : String) (parent : Ref) :
    n.childrenAt (name :: parent) = (n.plugAt (name :: parent)).map Plug.children := by
  simp only [Switch.childrenAt, Switch.plugAt]
  cases n.childrenAt parent <;> rfl

theorem plugAt_suffix_isSome (n : Switch) (name : String) (r : Ref) (pre : List String) :
    (n.plugAt (pre ++ name :: r)).isSome = true → (n.plugAt (name :: r)).isSome = true := by
  induction pre with
  | nil => intro h; exact h
  | cons y pre ih =>
    intro h
    apply ih
    have hc : (n.childrenAt (pre ++ name :: r)).isSome = true := by
      simp only [List.cons_append, Switch.plugAt] at h
      cases hca : n.childrenAt (pre ++ name :: r) with
      | none => rw [hca] at h; simp at h
      | some cs => rfl
    cases pre with
    | nil =>
      rw [List.nil_append, childrenAt_cons] at hc
      simpa using hc
    | cons z pre =>
      rw [List.cons_append, childrenAt_cons] at hc
      simpa using hc

theorem descend_of_plugAt (n : Switch) (names : List String) :
    ∀ r : Ref, (n.plugAt (names.reverse ++ r)).isSome = true →
      n.descend (some r) names = .ok (some (names.reverse ++ r)) := by
  induction names with
  | nil => intro r _; simp [Switch.descend]
  | cons name names ih =>
    intro r h
    have h' : (n.plugAt (names.reverse ++ name :: r)).isSome = true := by
      simpa using h
    have hstep := plugAt_suffix_isSome n name r names.reverse h'
    have hmatch :
        (match n.childrenAt r with
          | some cs => (getChild cs name).map (fun _ => name :: r)
          | none => none) = some (name :: r) := by
      simp only [Switch.plugAt] at hstep
      cases hc : n.childrenAt r with
      | none => rw [hc] at hstep; simp at hstep
      | some cs =>
        simp only [hc] at hstep
        cases hg : getChild cs name with
        | none => rw [hg] at hstep; simp at hstep
        | some c => simp [hg]
    simp only [Switch.descend, hmatch, ih (name :: r) h']
    simp

theorem getChild_in_of_inPlugs (n : Switch) (a : Plug) (h : n.inPlugs = some a) :
    getChild n.children "in" = some a := by
  unfold Switch.inPlugs at h
  cases hg : getChild n.children "in" with
  | none => rw [hg] at h; simp at h
  | some p =>
    rw [hg] at h
    simp only at h
    split at h
    · exact h
    · simp at h

theorem plugAt_slot_mem (n : Switch) (a c : Plug) (s : String) (hin : n.inPlugs = some a)
    (h : n.plugAt [s, "in"] = some c) : c ∈ a.children := by
  have hg := getChild_in_of_inPlugs n a hin
  simp only [Switch.plugAt, Switch.childrenAt, hg, Option.map_some'] at h
  exact List.mem_of_find?_eq_some h

theorem oppositePlug_from_slot (n : Switch) (a out : Plug) (s : String) (rel : List String)
    (j : Nat) (hin : n.inPlugs = some a) (hout : n.outPlug = some out)
    (hslot : ∀ c ∈ a.children, c.direction = Direction.In) :
    n.oppositePlug (rel ++ [s, "in"]) j = n.descend (some outRef) rel := by
  have hdir : ¬ ((n.plugAt [s, "in"]).map Plug.direction = some Direction.Out) := by
    cases hp : n.plugAt [s, "in"] with
    | none => simp
    | some c =>
      have := hslot c (plugAt_slot_mem n a c s hin hp)
      simp [this]
  unfold Switch.oppositePlug
  simp only [hin, hout, findAncestor_input, List.nil_append, hdir, if_false]

theorem oppositePlug_from_output (n : Switch) (a out : Plug) (rel : List String) (i : Nat)
    (hin : n.inPlugs = some a) (hout : n.outPlug = some out) :
    n.oppositePlug (rel ++ outRef) i =
      n.descend (if out.direction = Direction.Out then slotRef a i else some outRef) rel := by
  have hp : n.plugAt outRef = some out := hout
  unfold Switch.oppositePlug
  simp only [hin, hout, findAncestor_output, List.nil_append, hp, Option.map_some',
    Option.some.injEq]

/-- C19: from the output side the resolver is an involution.  On a node whose
slots have input direction, for every plug `p` of the node at or below the
output root, at any depth, and every slot index `i`: if `oppositePlug( p, i )`
returns a plug `q`, then `oppositePlug( q, j )` returns `p` for every slot
index `j`. -/
theorem oppositePlug_involution_from_output (n : Switch) (a : Plug) (rel : List String)
    (i j : Nat) (q : Ref)
    (hin : n.inPlugs = some a) (hslot : ∀ c ∈ a.children, c.direction = Direction.In)
    (hp : (n.plugAt (rel ++ outRef)).isSome = true)
    (hq : n.oppositePlug (rel ++ outRef) i = .ok (some q)) :
    n.oppositePlug q j = .ok (some (rel ++ outRef)) := by
  have hroot : (n.plugAt outRef).isSome = true := plugAt_suffix_isSome n "out" [] rel hp
  obtain ⟨out, hout⟩ : ∃ out, n.outPlug = some out := Option.isSome_iff_exists.mp hroot
  have hback : n.descend (some outRef) rel.reverse = .ok (some (rel ++ outRef)) := by
    have := descend_of_plugAt n rel.reverse outRef (by simpa using hp)
    simpa using this
  rw [oppositePlug_from_output n a out rel i hin hout] at hq
  by_cases hd : out.direction = Direction.Out
  · simp only [hd, if_true] at hq
    unfold slotRef at hq
    cases hc : a.children.get? i with
    | none =>
      rw [hc] at hq
      exact absurd hq (descend_none_ne_some n rel q)
    | some c =>
      rw [hc] at hq
      have hqeq := descend_eq_some n rel _ q hq
      rw [hqeq, oppositePlug_from_slot n a out c.name rel.reverse j hin hout hslot]
      exact hback
  · simp only [hd, if_false] at hq
    have hqeq := descend_eq_some n rel _ q hq
    rw [hqeq, oppositePlug_from_output n a out rel.reverse j hin hout]
    simp only [hd, if_false]
    exact hback

theorem oppositePlug_involution_from_output_witness :
    crossedNode.inPlugs = some (.mk "in" Direction.In PlugType.ArrayPlug
      [.mk "in0" Direction.In PlugType.ValuePlug
        [.mk "a" Direction.In PlugType.ValuePlug [leaf "b" Direction.In],
          .mk "b" Direction.In PlugType.ValuePlug [leaf "a" Direction.In]]]) ∧
    (crossedNode.plugAt (["b", "a"] ++ outRef)).isSome = true ∧
    crossedNode.oppositePlug (["b", "a"] ++ outRef) 0 = .ok (some ["a", "b", "in0", "in"]) ∧
    crossedNode.oppositePlug ["a", "b", "in0", "in"] 3 = .ok (some (["b", "a"] ++ outRef)) :=
  ⟨rfl, rfl, rfl,
    oppositePlug_involution_from_output crossedNode _ ["b", "a"] 0 3 ["a", "b", "in0", "in"] rfl
      (by
        intro c hc
        simp only [Plug.children, List.mem_singleton] at hc
        subst hc
        rfl)
      rfl rfl⟩

/-! ## Accepting inputs -/

/-- C20: `acceptsInput` returns true if and only if the base class accepts
the connection and either the input is null, or the plug does not have input
direction, or the resolver finds no opposite plug for it, or the opposite
plug the resolver finds accepts the input.  In particular a null input is
accepted whenever the base class accepts it, and an input that the opposite
plug rejects is rejected. -/
theorem acceptsInput_eq_true_iff (acc : Acceptance) (n : Switch) (plug : Ref)
    (inputPlug : Option Ref) :
    (n.acceptsInput acc plug inputPlug = .ok true ↔
      acc.baseAcceptsInput plug inputPlug = true ∧
        (inputPlug = none ∨
          (n.plugAt plug).map Plug.direction ≠ some Direction.In ∨
          n.oppositePlug plug 0 = .ok none ∨
          ∃ q i, inputPlug = some i ∧ n.oppositePlug plug 0 = .ok (some q) ∧
            acc.plugAcceptsInput q i = true)) ∧
    (acc.baseAcceptsInput plug none = true → n.acceptsInput acc plug none = .ok true) ∧
    (∀ q i, acc.baseAcceptsInput plug (some i) = true →
      (n.plugAt plug).map Plug.direction = some Direction.In →
      n.oppositePlug plug 0 = .ok (some q) → acc.plugAcceptsInput q i = false →
      n.acceptsInput acc plug (some i) = .ok false) := by
  refine ⟨?_, ?_, ?_⟩
  · unfold Switch.acceptsInput
    cases hb : acc.baseAcceptsInput plug inputPlug with
    | false => simp
    | true =>
      cases inputPlug with
      | none => simp
      | some i =>
        by_cases hd : (n.plugAt plug).map Plug.direction = some Direction.In
        · simp only [Bool.not_true, Bool.false_eq_true, if_false, hd, if_true, true_and,
            ne_eq, not_true_eq_false, false_or]
          cases ho : n.oppositePlug plug 0 with
          | error e => simp
          | ok r =>
            cases r with
            | none => simp
            | some q =>
              cases hq : acc.plugAcceptsInput q i <;> simp [hq]
        · simp [hd]
  · intro hb
    simp [Switch.acceptsInput, hb]
  · intro q i hb hd ho hq
    simp [Switch.acceptsInput, hb, hd, ho, hq]

theorem acceptsInput_eq_true_iff_witness :
    scenarioA.acceptsInput exampleAcceptance ["in1", "in"] none = .ok true ∧
    scenarioA.acceptsInput exampleAcceptance ["in1", "in"] (some ["bad"]) = .ok false ∧
    scenarioA.acceptsInput exampleAcceptance ["in1", "in"] (some ["good"]) = .ok true :=
  ⟨(acceptsInput_eq_true_iff exampleAcceptance scenarioA ["in1", "in"] none).2.1 rfl,
    (acceptsInput_eq_true_iff exampleAcceptance scenarioA ["in1", "in"] (some ["bad"])).2.2
      outRef ["bad"] rfl rfl rfl rfl,
    (acceptsInput_eq_true_iff exampleAcceptance scenarioA ["in1", "in"] (some ["good"])).1.mpr
      ⟨rfl, Or.inr (Or.inr (Or.inr ⟨outRef, ["good"], rfl, rfl, rfl⟩))⟩⟩

/-! ## Events -/

/-- C17: the wiring invariant does not survive the removal of a slot.
Scenario A wired to slot 2 (`index = 5`, four slots) satisfies it; after the
trailing slot `in3` is removed the array has three slots and the active index
is `5 mod 2 = 1`, yet the output is still wired to `in2`, because no handler
runs on removal: `handle` leaves `outInput` alone for every node.  The other
events re-derive the wiring. -/
theorem wiring_stale_after_slot_removed :
    wiredA.outInput = wiredA.expectedWire exampleHost [] ∧
    (wiredA.handle exampleHost [] (Event.slotRemoved 3)).toOption.map
        (fun n =>
          (n.inPlugs.map (fun a => a.children.map Plug.name), n.outInput,
            n.expectedWire exampleHost [])) =
      some (some ["in0", "in1", "in2"], some ["in2", "in"], some ["in1", "in"]) ∧
    (∀ (host : Host) (n : Switch) (current : Context) (i : Nat),
      (n.handle host current (Event.slotRemoved i)).toOption.map Switch.outInput =
        some n.outInput) ∧
    (wiredA.handle exampleHost [] (Event.slotAppended (leaf "in4" Direction.In))).toOption.map
        (fun n => (n.outInput, n.expectedWire exampleHost [])) =
      some (some ["in1", "in"], some ["in1", "in"]) ∧
    (wiredA.handle exampleHost [] (Event.indexSet 1)).toOption.map
        (fun n => (n.outInput, n.expectedWire exampleHost [])) =
      some (some ["in1", "in"], some ["in1", "in"]) :=
  ⟨rfl, rfl, fun _ _ _ _ => rfl, rfl, rfl⟩

theorem getChild_map_of_name (cs : List Plug) (g : Plug → Plug) (name : String)
    (hg : ∀ c, (g c).name = c.name) :
    getChild (cs.map g) name = (getChild cs name).map g := by
  unfold getChild
  rw [List.find?_map]
  congr 2
  funext c
  simp [hg]

theorem mapIn_name (f : List Plug → List Plug) (c : Plug) :
    (if c.name == "in" && c.type == PlugType.ArrayPlug then
        Plug.mk c.name c.direction c.type (f c.children)
      else c).name = c.name := by
  split <;> rfl

theorem inPlugs_mapInChildren (n : Switch) (a : Plug) (f : List Plug → List Plug)
    (hin : n.inPlugs = some a) :
    (n.mapInChildren f).inPlugs = some (Plug.mk "in" a.direction PlugType.ArrayPlug (f a.children)) := by
  have hg := getChild_in_of_inPlugs n a hin
  have hname : a.name = "in" := by
    have := List.find?_some hg
    simpa using this
  have htype : a.type = PlugType.ArrayPlug := by
    unfold Switch.inPlugs at hin
    rw [hg] at hin
    simp only at hin
    split at hin
    · assumption
    · simp at hin
  unfold Switch.inPlugs Switch.mapInChildren
  simp only
  rw [getChild_map_of_name _ _ _ (mapIn_name f), hg]
  have hga : (if a.name == "in" && a.type == PlugType.ArrayPlug then
        Plug.mk a.name a.direction a.type (f a.children)
      else a) = Plug.mk "in" a.direction PlugType.ArrayPlug (f a.children) := by
    simp [hname, htype]
  simp only [Option.map_some', hga]
  rfl

theorem outPlug_mapInChildren (n : Switch) (f : List Plug → List Plug) :
    (n.mapInChildren f).outPlug = n.outPlug := by
  unfold Switch.outPlug Switch.mapInChildren
  simp only
  rw [getChild_map_of_name _ _ _ (mapIn_name f)]
  cases hg : getChild n.children "out" with
  | none => rfl
  | some c =>
    have hname : c.name = "out" := by
      have := List.find?_some hg
      simpa using this
    simp [hname]

theorem childAdded_slot (host : Host) (n : Switch) (current : Context) (s : String) :
    n.childAdded host current [s, "in"] =
      if n.inPlugs.isSome then n.updateInternalConnection host current else .ok n := by
  unfold Switch.childAdded
  cases hin : n.inPlugs with
  | none =>
    cases hout : n.outPlug <;> simp [parentPlug, outRef]
  | some a => simp [parentPlug, inRef]

theorem updateInternalConnection_after_growth (host : Host) (m : Switch) (current : Context)
    (a1 out : Plug) (N : Nat)
    (hin : m.inPlugs = some a1) (hlen : a1.children.length = N + 1)
    (hout : m.outPlug = some out) (hdir : out.direction = Direction.Out)
    (hen : variesWithContext m.enabled = false) (henv : m.enabled.stored = true)
    (hidx : variesWithContext m.index = false) :
    m.updateInternalConnection host current =
      .ok { m with
        outInput := slotRef a1 (if N = 0 then 0 else toSizeT m.index.stored % N) } := by
  rw [updateInternalConnection_of_fixed_wire host m current a1 out hin hout hdir hen hidx,
    hlen, Nat.add_sub_cancel]
  by_cases hN : N = 0
  · simp [hN]
  · have h1 : ¬ (N + 1 ≤ 1) := by omega
    simp [hN, henv, h1]

/-- C18 fails as stated: on a node with three slots, Enabled true and the index
driven by a plug that holds `-2` and does not vary with context, handling
`childAdded` for an appended slot leaves the output wired to `in2`, the slot
at `(2 ^ 64 - 2) mod 3`, and not to the slot at the stored index modulo 3,
which is `in1`. -/
theorem growth_rewires_counterexample :
    ¬ (∀ (host : Host) (n : Switch) (current : Context) (a out slot : Plug),
        n.inPlugs = some a → n.outPlug = some out → out.direction = Direction.Out →
        variesWithContext n.enabled = false → n.enabled.stored = true →
        variesWithContext n.index = false →
        ∃ n1, n.handle host current (Event.slotAppended slot) = .ok n1 ∧
          n1.outInput =
            slotRef (Plug.mk "in" a.direction PlugType.ArrayPlug (a.children ++ [slot]))
              ((n.index.stored % (a.children.length : Int)).toNat)) := by
  intro h
  obtain ⟨n1, hn1, hwire⟩ := h exampleHost negativeIndexB []
    (.mk "in" Direction.In PlugType.ArrayPlug
      [leaf "in0" Direction.In, leaf "in1" Direction.In, leaf "in2" Direction.In])
    (leaf "out" Direction.Out) (leaf "in3" Direction.In) rfl rfl rfl rfl rfl rfl
  have hup : negativeIndexB.handle exampleHost [] (Event.slotAppended (leaf "in3" Direction.In)) =
      .ok { children :=
              (negativeIndexB.mapInChildren
                (fun cs => cs ++ [leaf "in3" Direction.In])).children,
            index := negativeIndexB.index, enabled := negativeIndexB.enabled,
            outInput := some ["in2", "in"] } := by
    simp only [Switch.handle]
    rw [childAdded_slot]
    have hin : (negativeIndexB.mapInChildren
        (fun cs => cs ++ [leaf "in3" Direction.In])).inPlugs = _ :=
      inPlugs_mapInChildren negativeIndexB _ (fun cs => cs ++ [leaf "in3" Direction.In]) rfl
    rw [hin]
    simp only [Option.isSome_some, if_true]
    rw [updateInternalConnection_after_growth exampleHost _ [] _ (leaf "out" Direction.Out) 3
      hin rfl rfl rfl rfl rfl rfl]
    rfl
  rw [hup] at hn1
  have hn := Except.ok.inj hn1
  subst hn
  have hformula :
      slotRef (Plug.mk "in" Direction.In PlugType.ArrayPlug
          ([leaf "in0" Direction.In, leaf "in1" Direction.In, leaf "in2" Direction.In] ++
            [leaf "in3" Direction.In]))
        ((negativeIndexB.index.stored % ((3 : Nat) : Int)).toNat) = some ["in1", "in"] := by
    decide
  have hwire' : (some ["in2", "in"] : Option Ref) = some ["in1", "in"] :=
    hwire.trans hformula
  revert hwire'
  decide

/-- C18, amended: on a node with input array (of size `N`) and output root
attached, Enabled true and neither control varying with context, handling the
`childAdded` signal for a slot appended to the array leaves the output wired
to `inputSlots[s mod N]` of the grown array, `s` being the stored index `v`
converted to `size_t` (a negative `v` counting as `v + 2 ^ 64`; slot 0 if the
array was empty); and setting the index to `w` afterwards, which the plug
clamps to its minimum 0, handled by `plugSet`, leaves it wired to
`inputSlots[max w 0 mod N]`.  Both slots exist, and for `0 ≤ v < 2 ^ 31`,
`0 ≤ w < 2 ^ 31` and `N ≥ 1` they are `inputSlots[v mod N]` and
`inputSlots[w mod N]`. -/
theorem growth_rewires (host : Host) (n : Switch) (current current2 : Context)
    (a out slot : Plug) (w : Int)
    (hin : n.inPlugs = some a)
    (hout : n.outPlug = some out) (hdir : out.direction = Direction.Out)
    (hen : variesWithContext n.enabled = false) (henv : n.enabled.stored = true)
    (hidx : variesWithContext n.index = false) :
    ∃ n1, n.handle host current (Event.slotAppended slot) = .ok n1 ∧
      n1.inPlugs =
        some (Plug.mk "in" a.direction PlugType.ArrayPlug (a.children ++ [slot])) ∧
      n1.outInput =
        slotRef (Plug.mk "in" a.direction PlugType.ArrayPlug (a.children ++ [slot]))
          (if a.children.length = 0 then 0
            else toSizeT n.index.stored % a.children.length) ∧
      n1.outInput.isSome = true ∧
      (0 ≤ n.index.stored → n.index.stored < 2 ^ 31 → 1 ≤ a.children.length →
        n1.outInput =
          slotRef (Plug.mk "in" a.direction PlugType.ArrayPlug (a.children ++ [slot]))
            (n.index.stored.toNat % a.children.length)) ∧
      ∃ n2, n1.handle host current2 (Event.indexSet w) = .ok n2 ∧
        n2.index.stored = max w 0 ∧
        n2.outInput =
          slotRef (Plug.mk "in" a.direction PlugType.ArrayPlug (a.children ++ [slot]))
            (if a.children.length = 0 then 0
              else toSizeT (max w 0) % a.children.length) ∧
        n2.outInput.isSome = true ∧
        (0 ≤ w → w < 2 ^ 31 → 1 ≤ a.children.length →
          n2.outInput =
            slotRef (Plug.mk "in" a.direction PlugType.ArrayPlug (a.children ++ [slot]))
              (w.toNat % a.children.length)) := by
  have hlen : (Plug.mk "in" a.direction PlugType.ArrayPlug (a.children ++ [slot])).children.length
      = a.children.length + 1 := by
    simp [Plug.children]
  have hm_in := inPlugs_mapInChildren n a (fun cs => cs ++ [slot]) hin
  have hm_out : (n.mapInChildren (fun cs => cs ++ [slot])).outPlug = some out := by
    rw [outPlug_mapInChildren, hout]
  have h1 := updateInternalConnection_after_growth host
    (n.mapInChildren (fun cs => cs ++ [slot])) current _ out a.children.length hm_in hlen
    hm_out hdir hen henv hidx
  have hsome : ∀ k : Nat,
      (slotRef (Plug.mk "in" a.direction PlugType.ArrayPlug (a.children ++ [slot]))
        (if a.children.length = 0 then 0 else k % a.children.length)).isSome = true := by
    intro k
    apply slotRef_isSome
    rw [hlen]
    by_cases h0 : a.children.length = 0
    · simp [h0]
    · have := Nat.mod_lt k (show a.children.length > 0 by omega)
      simp only [h0, if_false]
      omega
  have hnonneg : ∀ v : Int, 0 ≤ v → v < 2 ^ 31 → 1 ≤ a.children.length →
      (if a.children.length = 0 then 0 else toSizeT v % a.children.length) =
        v.toNat % a.children.length := by
    intro v hv0 hv hN
    have h0 : a.children.length ≠ 0 := by omega
    simp only [h0, if_false, toSizeT_of_nonneg v hv0 hv]
  refine ⟨{ children := (n.mapInChildren (fun cs => cs ++ [slot])).children,
            index := n.index, enabled := n.enabled,
            outInput :=
              slotRef (Plug.mk "in" a.direction PlugType.ArrayPlug (a.children ++ [slot]))
                (if a.children.length = 0 then 0
                  else toSizeT n.index.stored % a.children.length) },
    ?_, hm_in, rfl, hsome _, ?_, ?_⟩
  · show Switch.childAdded host _ current [slot.name, "in"] = _
    rw [childAdded_slot, hm_in]
    exact h1
  · intro hv0 hv hN
    show slotRef _ _ = slotRef _ _
    rw [hnonneg _ hv0 hv hN]
  · have h2 := updateInternalConnection_after_growth host
      { children := (n.mapInChildren (fun cs => cs ++ [slot])).children,
        index := { n.index with stored := max w 0 }, enabled := n.enabled,
        outInput :=
          slotRef (Plug.mk "in" a.direction PlugType.ArrayPlug (a.children ++ [slot]))
            (if a.children.length = 0 then 0
              else toSizeT n.index.stored % a.children.length) }
      current2 _ out a.children.length hm_in hlen hm_out hdir hen henv hidx
    refine ⟨{ children := (n.mapInChildren (fun cs => cs ++ [slot])).children,
              index := { n.index with stored := max w 0 }, enabled := n.enabled,
              outInput :=
                slotRef (Plug.mk "in" a.direction PlugType.ArrayPlug (a.children ++ [slot]))
                  (if a.children.length = 0 then 0
                    else toSizeT (max w 0) % a.children.length) },
      ?_, rfl, rfl, hsome _, ?_⟩
    · show Switch.plugSet host _ current2 indexPlug = _
      unfold Switch.plugSet
      simp only [true_or, if_true]
      exact h2
    · intro hw0 hw hN
      show slotRef _ _ = slotRef _ _
      have hmax : max w 0 = w := max_eq_left hw0
      rw [hmax, hnonneg _ hw0 hw hN]

theorem growth_rewires_witness :
    ∃ n1, wiredA.handle exampleHost [] (Event.slotAppended (leaf "in4" Direction.In)) = .ok n1 ∧
      n1.outInput = some ["in1", "in"] ∧
      ∃ n2, n1.handle exampleHost [] (Event.indexSet 3) = .ok n2 ∧
        n2.outInput = some ["in3", "in"] := by
  obtain ⟨n1, h1, _, _, _, h1w, n2, h2, _, _, _, h2w⟩ :=
    growth_rewires exampleHost wiredA [] []
      (.mk "in" Direction.In PlugType.ArrayPlug
        [leaf "in0" Direction.In, leaf "in1" Direction.In, leaf "in2" Direction.In,
          leaf "in3" Direction.In])
      (leaf "out" Direction.Out) (leaf "in4" Direction.In) 3 rfl rfl rfl rfl rfl rfl
  exact ⟨n1, h1, (h1w (by decide) (by decide) (by decide)).trans (by decide), n2, h2,
    (h2w (by decide) (by decide) (by decide)).trans (by decide)⟩

end Gaffer
